import Mathlib

/-!
navi-tt/job: a shallow embedding of the worker engine

The development follows the Go sources:

* `task.go`        : `Task`, `Result`, the result-state constants, the JSON encoding
                     (`Bytes`, `String`, `DecodeBytesTask`, `DecodeStringTask`);
* `internal/queue` : the `Queue` interface and its `ErrNil` sentinel;
* `job.go`         : the `Job` record, `Sleep`, `ResetSleep`, the error sentinels;
* `job_control.go` : `New`, `SetSleepy`, `AddFunc`, `AddWorkerWithFunc`, callbacks;
* `job_queue.go`   : the enqueue helpers;
* `worker.go`      : `validate`, `NewWorkerWithFunc`, `processTask`.

Conventions of the embedding.

* Go `int`, `int64` and `time.Duration` values are integers (`Int`); the arithmetic the
  code performs on them wraps to 64 bits (`wrapInt64`).
* A Go `string` is a sequence of bytes (`GoString`); `lit "t1"` is the Go string literal
  with that text and `[]` is the empty string `""`.
* A Go function value may return or panic.  A call that receives the `*Task` reports the
  task as it left it together with the panic value, if any (`Ran`); a queue call reports
  its results or a panic (`Call`).
* Every observable call the code makes (callbacks, handler, queue operations, log lines) is
  appended to a trace of `Event`s, so that "is called", "is called once" and "is not called"
  are statements about that trace.
* Pointers are passed as values and the updated value is returned.
-/

namespace NaviJob

/-! ## Values -/

/-- A Go `string` (equally a `[]byte`): a sequence of bytes, not necessarily valid UTF-8. -/
abbrev GoString := List UInt8

/-- `utf8.EncodeRune`: the UTF-8 encoding of a rune; a surrogate or a value above U+10FFFF
is encoded as U+FFFD. -/
def encodeRune (r : Nat) : List UInt8 :=
  if r ≤ 0x7F then [UInt8.ofNat r]
  else if r ≤ 0x7FF then [UInt8.ofNat (0xC0 + r / 64), UInt8.ofNat (0x80 + r % 64)]
  else if 0x10FFFF < r ∨ (0xD800 ≤ r ∧ r ≤ 0xDFFF) then [0xEF, 0xBF, 0xBD]
  else if r ≤ 0xFFFF then
    [UInt8.ofNat (0xE0 + r / 4096), UInt8.ofNat (0x80 + r / 64 % 64), UInt8.ofNat (0x80 + r % 64)]
  else
    [UInt8.ofNat (0xF0 + r / 262144), UInt8.ofNat (0x80 + r / 4096 % 64),
     UInt8.ofNat (0x80 + r / 64 % 64), UInt8.ofNat (0x80 + r % 64)]

/-- The Go string literal with the given text: its UTF-8 encoding. -/
def lit (s : String) : GoString :=
  s.data.flatMap (fun c => encodeRune c.toNat)

/-- Go `interface{}` values, as far as the engine handles them: it only stores and forwards
them.  A `[]interface{}` that is itself passed where one `interface{}` is expected is a
single `slice` value. -/
inductive Iface where
  | str (s : GoString)
  | int (i : Int)
  | slice (xs : List Iface)

/-- Go `error` values met by the engine: its three sentinels (`job.go`), the queue sentinel
(`internal/queue/queue.go`) and any other error, identified by its text. -/
inductive Error where
  | ErrQueueNotExist
  | ErrTimeout
  | ErrTopicRegistered
  | ErrNil
  | other (msg : String)
  deriving DecidableEq, Repr

/-- Outcome of calling a Go function value that does not receive the task: its results, or
the panic value (what `recover()` returns, not nil). -/
inductive Call (α : Type) where
  | ret (a : α)
  | panicked (e : Iface)

/-! ## 64-bit arithmetic -/

/-- The wrap of an integer to the `int64` range (the complement of two). -/
def wrapInt64 (x : Int) : Int :=
  (x + 2 ^ 63) % 2 ^ 64 - 2 ^ 63

/-- The effect of `atomic.AddInt64(&c, d)` on the counter value. -/
def addInt64 (c d : Int) : Int :=
  wrapInt64 (c + d)

/-- Go `a * b` on `int64`. -/
def mulInt64 (a b : Int) : Int :=
  wrapInt64 (a * b)

/-- 2^63 - 1. -/
def maxInt64 : Int := 2 ^ 63 - 1

/-- -2^63. -/
def minInt64 : Int := -(2 ^ 63)

/-- One millisecond as a `time.Duration` (nanoseconds). -/
def Millisecond : Int := 1000000

/-- One second as a `time.Duration` (nanoseconds). -/
def Second : Int := 1000000000

/-! ## task.go -/

def StateSucceed : Int := 0
def StateFailed : Int := 1
def StateFailedWithAck : Int := 2
def StateFailedWithRetryNumLimit : Int := 3

structure Result where
  State : Int
  Message : GoString
  deriving DecidableEq, Repr

structure Task where
  Id : GoString
  Topic : GoString
  Message : GoString
  Token : GoString
  DequeueCount : Int
  Result : Result
  deriving DecidableEq, Repr

/-- Outcome of calling a Go function value on a `*Task`: the task as the call left it, and
the panic value when the call ended in a panic. -/
structure Ran where
  task : Task
  panic : Option Iface

/-! ## internal/queue/queue.go -/

/-- The `Queue` interface: the four methods of a backend.  The context argument is the
background context of the engine and is left out.  `args` is the variadic tail as the method
receives it. -/
structure Queue where
  Enqueue : (key : GoString) → (message : GoString) → (args : List Iface) →
    Call (Bool × Option Error)
  Dequeue : (key : GoString) → (args : List Iface) →
    Call (GoString × GoString × Int × Option Error)
  AckMsg : (key : GoString) → (token : GoString) → (args : List Iface) →
    Call (Bool × Option Error)
  BatchEnqueue : (key : GoString) → (messages : List GoString) → (args : List Iface) →
    Call (Bool × Option Error)

/-! ## Trace of observable calls -/

inductive Event where
  | enqueue (key : GoString) (message : GoString) (args : List Iface)
  | batchEnqueue (key : GoString) (messages : List GoString) (args : List Iface)
  | dequeue (key : GoString) (args : List Iface)
  | ackMsg (key : GoString) (token : GoString) (args : List Iface)
  | beforeCallback (t : Task)
  | exec (t : Task)
  | afterCallback (t : Task)
  | panicCallback (t : Task) (e : Iface)
  | logTaskPanic (t : Task) (e : Iface)
  | logAckError (topic : GoString) (t : Task)
  | timeSleep (d : Int)
  | logDequeueError (err : Error) (message : GoString)
  | logDecodeError (err : Error) (message : GoString)

def Event.isAck : Event → Bool
  | .ackMsg _ _ _ => true
  | _ => false

def Event.isPanicCallback : Event → Bool
  | .panicCallback _ _ => true
  | _ => false

def Event.isAfterCallback : Event → Bool
  | .afterCallback _ => true
  | _ => false

/-- Whether the event is a call of a method of a queue backend. -/
def Event.isQueueCall : Event → Bool
  | .enqueue _ _ _ => true
  | .batchEnqueue _ _ _ => true
  | .dequeue _ _ => true
  | .ackMsg _ _ _ => true
  | _ => false

/-! ## worker.go, job.go: the records -/

/-- The `ants.Pool` of a worker, as far as the engine fixes it: its capacity. -/
structure Pool where
  cap : Int
  deriving DecidableEq, Repr

/-- The struct `WorkerWithFunc`.  The back-reference `job` is not stored: the operations take
the engine explicitly.  `pipeCap` is the capacity of the channel `pipe` and `pipe` its
buffered tasks. -/
structure WorkerWithFunc where
  Pool : Pool
  q : Queue
  topic : GoString
  worker : Task → Ran
  extra : List Iface
  working : Bool
  pipeCap : Int
  pipe : List Task

/-- The struct `Job`.  `workers` is the Go map as an association list with unique keys
(`mapGet`, `mapSet`); `wg` is the counter of the wait group; `stopOnce` tells whether the
`sync.Once` has fired. -/
structure Job where
  stopOnce : Bool
  workers : List (GoString × WorkerWithFunc)
  wg : Int
  running : Bool
  sleepy : Int
  initSleepy : Int
  maxSleepy : Int
  timer : Int
  isQueueInit : Bool
  pullCount : Int
  pullEmptyCount : Int
  pullErrCount : Int
  taskCount : Int
  taskErrCount : Int
  handleCount : Int
  handleErrCount : Int
  handlePanicCount : Int
  taskErrCallback : Option (Task → Ran)
  taskPanicCallback : Option (Task → Iface → Ran)
  taskBeforeCallback : Option (Task → Ran)
  taskAfterCallback : Option (Task → Ran)

/-- Go `m[k]` with the comma-ok form. -/
def mapGet {β : Type} (m : List (GoString × β)) (k : GoString) : Option β :=
  match m with
  | [] => none
  | (k1, v) :: rest => if k1 = k then some v else mapGet rest k

/-- Go `m[k] = v`. -/
def mapSet {β : Type} (m : List (GoString × β)) (k : GoString) (v : β) :
    List (GoString × β) :=
  match m with
  | [] => [(k, v)]
  | (k1, v1) :: rest => if k1 = k then (k, v) :: rest else (k1, v1) :: mapSet rest k v

/-! ## worker.go: processTask -/

/-- What the body of `processTask` (everything after the `defer` statement) leaves behind
when it ends, by `return`, by falling off the end, or by a panic. -/
structure Body where
  job : Job
  task : Task
  trace : List Event
  panic : Option Iface

/-- What a call of `processTask` leaves behind; `panic` is a panic that leaves the
function (raised by the panic callback inside the deferred function). -/
structure Processed where
  job : Job
  task : Task
  trace : List Event
  panic : Option Iface

/-- The `taskBeforeCallback` step of `processTask`. -/
def runBefore (j : Job) (task : Task) : Body :=
  match j.taskBeforeCallback with
  | none => { job := j, task := task, trace := [], panic := none }
  | some cb =>
    { job := j, task := (cb task).task, trace := [Event.beforeCallback task],
      panic := (cb task).panic }

/-- The `switch result.State` of `processTask`: the value it leaves in `isAck`. -/
def isAckState (state : Int) : Bool :=
  if state = StateSucceed then true
  else if state = StateFailedWithRetryNumLimit then true
  else if state = StateFailedWithAck then true
  else if state = StateFailed then false
  else false

/-- The `switch result.State` of `processTask`: whether the case increments
`handleErrCount`. -/
def isErrState (state : Int) : Bool :=
  if state = StateSucceed then false
  else if state = StateFailedWithRetryNumLimit then false
  else if state = StateFailedWithAck then true
  else if state = StateFailed then true
  else false

/-- The counter updates of `processTask` after the handler has returned:
`atomic.AddInt64(&handleCount, 1)`, then the increment of `handleErrCount` in the cases
of the switch that have one. -/
def countResult (j : Job) (state : Int) : Job :=
  if isErrState state then
    { j with handleCount := addInt64 j.handleCount 1,
             handleErrCount := addInt64 j.handleErrCount 1 }
  else { j with handleCount := addInt64 j.handleCount 1 }

/-- The `taskAfterCallback` step of `processTask`. -/
def runAfter (j : Job) (task : Task) (tr : List Event) : Body :=
  match j.taskAfterCallback with
  | none => { job := j, task := task, trace := tr, panic := none }
  | some cb =>
    { job := j, task := (cb task).task, trace := tr ++ [Event.afterCallback task],
      panic := (cb task).panic }

/-- The acknowledgement step of `processTask` and what follows it: `AckMsg` is called
when `isAck && task.Token != ""`; an error of the call is logged and ends the body before
the after callback.  The `extra` slice of the worker is passed as one variadic argument. -/
def runAck (w : WorkerWithFunc) (j : Job) (t : Task) (tr : List Event) (isAck : Bool) : Body :=
  if isAck && t.Token != [] then
    match w.q.AckMsg w.topic t.Token [Iface.slice w.extra] with
    | Call.panicked e =>
      { job := j, task := t,
        trace := tr ++ [Event.ackMsg w.topic t.Token [Iface.slice w.extra]], panic := some e }
    | Call.ret (_, some _) =>
      { job := j, task := t,
        trace := tr ++ [Event.ackMsg w.topic t.Token [Iface.slice w.extra],
                        Event.logAckError w.topic t],
        panic := none }
    | Call.ret (_, none) =>
      runAfter j t (tr ++ [Event.ackMsg w.topic t.Token [Iface.slice w.extra]])
  else runAfter j t tr

/-- The body of `processTask` from the handler call on (the before callback has returned). -/
def runHandler (w : WorkerWithFunc) (j : Job) (task : Task) (tr : List Event) : Body :=
  match (w.worker task).panic with
  | some e => { job := j, task := (w.worker task).task, trace := tr ++ [Event.exec task],
                panic := some e }
  | none =>
    runAck w (countResult j (w.worker task).task.Result.State) (w.worker task).task
      (tr ++ [Event.exec task]) (isAckState (w.worker task).task.Result.State)

/-- The body of `processTask`, after `wg.Add(1)` and the `defer`. -/
def processTaskBody (w : WorkerWithFunc) (j : Job) (task : Task) : Body :=
  match (runBefore j task).panic with
  | some e => { job := j, task := (runBefore j task).task, trace := (runBefore j task).trace,
                panic := some e }
  | none => runHandler w j (runBefore j task).task (runBefore j task).trace

/-- The deferred function of `processTask`: `wg.Done()`, then `recover()`: after a panic
`handlePanicCount` is incremented and the panic callback is called, or the panic is logged
when no callback is set. -/
def processTaskDeferred (b : Body) : Processed :=
  match b.panic with
  | none => { job := { b.job with wg := b.job.wg - 1 }, task := b.task, trace := b.trace,
              panic := none }
  | some e =>
    match b.job.taskPanicCallback with
    | some cb =>
      { job := { b.job with wg := b.job.wg - 1,
                            handlePanicCount := addInt64 b.job.handlePanicCount 1 },
        task := (cb b.task e).task, trace := b.trace ++ [Event.panicCallback b.task e],
        panic := (cb b.task e).panic }
    | none =>
      { job := { b.job with wg := b.job.wg - 1,
                            handlePanicCount := addInt64 b.job.handlePanicCount 1 },
        task := b.task, trace := b.trace ++ [Event.logTaskPanic b.task e], panic := none }

/-- `func (w *WorkerWithFunc) processTask(task *Task)`. -/
def processTask (w : WorkerWithFunc) (j : Job) (task : Task) : Processed :=
  processTaskDeferred (processTaskBody w { j with wg := j.wg + 1 } task)

/-- The run of the handler inside `processTask`, when the handler is reached (the before
callback, if one is set, has returned without panicking). -/
def handlerRun (w : WorkerWithFunc) (j : Job) (task : Task) : Option Ran :=
  match (runBefore j task).panic with
  | some _ => none
  | none => some (w.worker (runBefore j task).task)

/-- Successive executions of `processTask` by one executor slot (a pool of size 1), in the
order in which the tasks are submitted. -/
def processTasks (w : WorkerWithFunc) (j : Job) : List Task → Job
  | [] => j
  | t :: ts => processTasks w (processTask w j t).job ts

/-! ## job_control.go, job.go: construction and adaptive sleep -/

/-- `func New() *Job`. -/
def New : Job :=
  { stopOnce := false, workers := [], wg := 0, running := false,
    sleepy := Millisecond * 10, initSleepy := Millisecond * 10, maxSleepy := Millisecond * 10,
    timer := Millisecond * 30, isQueueInit := false,
    pullCount := 0, pullEmptyCount := 0, pullErrCount := 0, taskCount := 0, taskErrCount := 0,
    handleCount := 0, handleErrCount := 0, handlePanicCount := 0,
    taskErrCallback := none, taskPanicCallback := none, taskBeforeCallback := none,
    taskAfterCallback := none }

/-- `func (j *Job) SetSleepy(sleepy time.Duration, args ...time.Duration)`. -/
def Job.SetSleepy (j : Job) (sleepy : Int) (args : List Int) : Job :=
  match args with
  | a :: _ => { j with sleepy := sleepy, initSleepy := sleepy, maxSleepy := a }
  | [] => { j with sleepy := sleepy, initSleepy := sleepy, maxSleepy := sleepy }

/-- The assignments of `func (j *Job) Sleep()`; the call then blocks for the new `sleepy`
(`time.Sleep(j.sleepy)`), which changes no field. -/
def Job.Sleep (j : Job) : Job :=
  if mulInt64 j.sleepy 2 < j.maxSleepy then
    { j with sleepy := mulInt64 j.sleepy 2 }
  else if mulInt64 j.sleepy 2 ≥ j.maxSleepy && j.sleepy != j.maxSleepy then
    if j.sleepy < j.maxSleepy then { j with sleepy := j.maxSleepy } else j
  else j

/-- `func (j *Job) ResetSleep()`. -/
def Job.ResetSleep (j : Job) : Job :=
  if j.sleepy != j.initSleepy then j.SetSleepy j.initSleepy [] else j

/-- `n` consecutive calls of `Sleep`. -/
def Job.SleepN (j : Job) : Nat → Job
  | 0 => j
  | n + 1 => (j.SleepN n).Sleep

/-- The calls that touch the adaptive-sleep fields. -/
inductive SleepOp where
  | setSleepy (sleepy : Int) (args : List Int)
  | sleep
  | resetSleep

/-- The effect of one call. -/
def Job.applySleepOp (j : Job) : SleepOp → Job
  | .setSleepy s args => j.SetSleepy s args
  | .sleep => j.Sleep
  | .resetSleep => j.ResetSleep

/-- The effect of a sequence of calls, first call first. -/
def Job.applySleepOps (j : Job) : List SleepOp → Job
  | [] => j
  | op :: ops => (j.applySleepOp op).applySleepOps ops

/-- Whether the arguments of a `SetSleepy` call are ordered and leave room for the doubling:
`0 ≤ init ≤ max < 2^62`, where `max` is `init` when it is left out.  The other calls carry
no arguments. -/
def SleepOp.wellConfigured : SleepOp → Bool
  | .setSleepy s (a :: _) => decide (0 ≤ s) && decide (s ≤ a) && decide (a < 2 ^ 62)
  | .setSleepy s [] => decide (0 ≤ s) && decide (s < 2 ^ 62)
  | .sleep => true
  | .resetSleep => true

/-- `func (j *Job) RegisterTaskBeforeCallback(f func(task *Task))`. -/
def Job.RegisterTaskBeforeCallback (j : Job) (f : Task → Ran) : Job :=
  { j with taskBeforeCallback := some f }

/-- `func (j *Job) RegisterTaskAfterCallback(f func(task *Task))`. -/
def Job.RegisterTaskAfterCallback (j : Job) (f : Task → Ran) : Job :=
  { j with taskAfterCallback := some f }

/-- `func (j *Job) RegisterTaskPanicCallback(f func(task *Task, e ...interface{}))`. -/
def Job.RegisterTaskPanicCallback (j : Job) (f : Task → Iface → Ran) : Job :=
  { j with taskPanicCallback := some f }

/-! ## worker.go, job_control.go: registration -/

/-- `func validate(q queue.Queue, topic string, f func(context.Context, *Task)) error`;
a nil queue or a nil function is `none`. -/
def validate (q : Option Queue) (topic : GoString) (f : Option (Task → Ran)) :
    Option Error :=
  match q with
  | none => some (Error.other "queue.Queue can not be nil")
  | some _ =>
    if topic.length = 0 then some (Error.other "topic can not be\"\"")
    else match f with
      | none => some (Error.other "work func can not be nil")
      | some _ => none

def defaultConcurrency : Int := 5

/-- `func (j *Job) NewWorkerWithFunc(q, topic, f, size, extra...)`.  `NewPool` stands for
`ants.NewPool(size, ants.WithNonblocking(false))` of the pool library. -/
def NewWorkerWithFunc (NewPool : Int → Except Error Pool) (q : Option Queue)
    (topic : GoString) (f : Option (Task → Ran)) (size : Int) (extra : List Iface) :
    Except Error WorkerWithFunc :=
  match validate q topic f with
  | some err => Except.error err
  | none =>
    match q, f with
    | some q1, some f1 =>
      let size1 := if size ≤ 0 then defaultConcurrency else size
      match NewPool size1 with
      | Except.error err => Except.error err
      | Except.ok pool =>
        Except.ok { Pool := pool, q := q1, topic := topic, worker := f1, extra := extra,
                    working := true, pipeCap := size1, pipe := [] }
    | _, _ => Except.error (Error.other "nil")  -- not reached: validate has refused nil

/-- `func (j *Job) AddWorkerWithFunc(w *WorkerWithFunc) error`. -/
def Job.AddWorkerWithFunc (j : Job) (w : WorkerWithFunc) : Job × Option Error :=
  match mapGet j.workers w.topic with
  | some _ => (j, some Error.ErrTopicRegistered)
  | none => ({ j with workers := mapSet j.workers w.topic w }, none)

/-- `func (j *Job) AddFunc(q, topic, f, size, args...) error`: the slice `args` is handed
to `NewWorkerWithFunc` as one variadic argument. -/
def Job.AddFunc (NewPool : Int → Except Error Pool) (j : Job) (q : Option Queue)
    (topic : GoString) (f : Option (Task → Ran)) (size : Int) (args : List Iface) :
    Job × Option Error :=
  match NewWorkerWithFunc NewPool q topic f size [Iface.slice args] with
  | Except.error err => (j, some err)
  | Except.ok wp => j.AddWorkerWithFunc wp

/-! ## job_queue.go: the enqueue helpers -/

/-- What an enqueue helper returns, with the queue calls it made. -/
structure Enqueued where
  ret : Call (Bool × Option Error)
  trace : List Event

/-- `func GenTask(topic string, message string) Task`; `id` is the value that the call of
`GenUUID()` returned. -/
def GenTask (id : GoString) (topic : GoString) (message : GoString) : Task :=
  { Id := id, Topic := topic, Message := message, Token := [], DequeueCount := 0,
    Result := { State := 0, Message := [] } }

/-- `func (j *Job) GetQueueByTopic(topic string) queue.Queue`; `none` is the nil queue. -/
def Job.GetQueueByTopic (j : Job) (topic : GoString) : Option Queue :=
  match mapGet j.workers topic with
  | none => none
  | some w => some w.q

/-- `func (j *Job) EnqueueWithTask(ctx, topic, task, args...) (bool, error)`.  `JsonEncode`
is the encoder of the package, whose error the code drops. -/
def Job.EnqueueWithTask (JsonEncode : Task → GoString × Option Error) (j : Job)
    (topic : GoString) (task : Task) (args : List Iface) : Enqueued :=
  match j.GetQueueByTopic topic with
  | none => { ret := Call.ret (false, some Error.ErrQueueNotExist), trace := [] }
  | some q =>
    let task1 := if task.Topic = [] then { task with Topic := topic } else task
    let s := (JsonEncode task1).1
    { ret := q.Enqueue topic s args, trace := [Event.enqueue topic s args] }

/-- `func (j *Job) Enqueue(ctx, topic, message, args...) (bool, error)`; `id` is the value
returned by `GenUUID()`. -/
def Job.Enqueue (JsonEncode : Task → GoString × Option Error) (id : GoString) (j : Job)
    (topic : GoString) (message : GoString) (args : List Iface) : Enqueued :=
  j.EnqueueWithTask JsonEncode topic (GenTask id topic message) args

/-- `func (j *Job) EnqueueRaw(ctx, topic, message, args...) (bool, error)`. -/
def Job.EnqueueRaw (j : Job) (topic : GoString) (message : GoString) (args : List Iface) :
    Enqueued :=
  match j.GetQueueByTopic topic with
  | none => { ret := Call.ret (false, some Error.ErrQueueNotExist), trace := [] }
  | some q => { ret := q.Enqueue topic message args, trace := [Event.enqueue topic message args] }

/-- The loop of `BatchEnqueueWithTask` that fills `arr`. -/
def encodeTasks (JsonEncode : Task → GoString × Option Error) (topic : GoString) :
    List Task → List GoString
  | [] => []
  | task :: rest =>
    let task1 := if task.Topic = [] then { task with Topic := topic } else task
    (JsonEncode task1).1 :: encodeTasks JsonEncode topic rest

/-- `func (j *Job) BatchEnqueueWithTask(ctx, topic, tasks, args...) (bool, error)`. -/
def Job.BatchEnqueueWithTask (JsonEncode : Task → GoString × Option Error) (j : Job)
    (topic : GoString) (tasks : List Task) (args : List Iface) : Enqueued :=
  match j.GetQueueByTopic topic with
  | none => { ret := Call.ret (false, some Error.ErrQueueNotExist), trace := [] }
  | some q =>
    let arr := encodeTasks JsonEncode topic tasks
    { ret := q.BatchEnqueue topic arr args, trace := [Event.batchEnqueue topic arr args] }

/-- The loop of `BatchEnqueue` that fills `tasks`; `ids k` is the value returned by the
call of `GenUUID()` for the message at index `k`. -/
def genTasks (ids : Nat → GoString) (topic : GoString) (k : Nat) :
    List GoString → List Task
  | [] => []
  | message :: rest => GenTask (ids k) topic message :: genTasks ids topic (k + 1) rest

/-- `func (j *Job) BatchEnqueue(ctx, topic, messages, args...) (bool, error)`. -/
def Job.BatchEnqueue (JsonEncode : Task → GoString × Option Error) (ids : Nat → GoString)
    (j : Job) (topic : GoString) (messages : List GoString) (args : List Iface) : Enqueued :=
  j.BatchEnqueueWithTask JsonEncode topic (genTasks ids topic 0 messages) args

/-! ## Sample values -/

/-- A backend whose methods all succeed; `Dequeue` finds nothing. -/
def okQueue : Queue :=
  { Enqueue := fun _ _ _ => Call.ret (true, none),
    Dequeue := fun _ _ => Call.ret ([], [], 0, none),
    AckMsg := fun _ _ _ => Call.ret (true, none),
    BatchEnqueue := fun _ _ _ => Call.ret (true, none) }

/-- A handler that stores the given state in the result. -/
def stateHandler (state : Int) : Task → Ran :=
  fun t => { task := { t with Result := { State := state, Message := [] } }, panic := none }

/-- The handler of scenario S2: it panics on message "x" and succeeds otherwise. -/
def panicOnX : Task → Ran :=
  fun t =>
    if t.Message = lit "x" then { task := t, panic := some (Iface.str (lit "x")) }
    else { task := { t with Result := { State := StateSucceed, Message := [] } }, panic := none }

/-- A worker for topic "t1" on `okQueue` with one executor slot. -/
def sampleWorker (f : Task → Ran) : WorkerWithFunc :=
  { Pool := { cap := 1 }, q := okQueue, topic := lit "t1", worker := f, extra := [],
    working := true, pipeCap := 1, pipe := [] }

/-- A dequeued task of topic "t1" with the given message and delivery token. -/
def sampleTask (message token : String) : Task :=
  { Id := lit "id", Topic := lit "t1", Message := lit message, Token := lit token,
    DequeueCount := 1, Result := { State := 0, Message := [] } }

/-- A callback that panics. -/
def panickingCallback : Task → Ran :=
  fun t => { task := t, panic := some (Iface.str (lit "callback")) }

/-- A panic callback that returns. -/
def quietPanicCallback : Task → Iface → Ran :=
  fun t _ => { task := t, panic := none }

/-- A pool constructor that succeeds with the requested capacity. -/
def okPool : Int → Except Error Pool :=
  fun size => Except.ok { cap := size }

/-! ## unicode/utf8 and encoding/json, as task.go uses them

`Task.Bytes` is `json.Marshal(t)` and `DecodeBytesTask` is `json.Unmarshal(b, &t)`.  The two
library functions are written out for the struct `Task` (field names from the struct tags of
`task.go`), following the Go library: `utf8.DecodeRune`, the string encoder of `encode.go`
with HTML escaping on, the scanner grammar of `scanner.go`, and `unquote`, `object` and
`literalStore` of `decode.go`. -/

/-- `utf8.RuneError`, U+FFFD. -/
def RuneError : Nat := 0xFFFD

/-- The range that `utf8.DecodeRune` accepts for the second byte after the first byte `x` of
a three-byte or four-byte sequence. -/
def acceptRange (x : Nat) : Nat × Nat :=
  if x = 0xE0 then (0xA0, 0xBF)
  else if x = 0xED then (0x80, 0x9F)
  else if x = 0xF0 then (0x90, 0xBF)
  else if x = 0xF4 then (0x80, 0x8F)
  else (0x80, 0xBF)

/-- Whether the byte is a continuation byte, 0x80..0xBF. -/
def isCont (b : UInt8) : Bool :=
  decide (0x80 ≤ b.toNat) && decide (b.toNat ≤ 0xBF)

/-- `utf8.DecodeRune`: the rune at the head of `p` and its width in bytes; `(RuneError, 0)`
for the empty input and `(RuneError, 1)` for an invalid or incomplete encoding. -/
def decodeRune (p : List UInt8) : Nat × Nat :=
  match p with
  | [] => (RuneError, 0)
  | p0 :: rest =>
    if p0.toNat < 0x80 then (p0.toNat, 1)
    else if p0.toNat < 0xC2 then (RuneError, 1)
    else if p0.toNat < 0xE0 then
      match rest with
      | b1 :: _ =>
        if isCont b1 then (p0.toNat % 32 * 64 + b1.toNat % 64, 2) else (RuneError, 1)
      | [] => (RuneError, 1)
    else if p0.toNat < 0xF0 then
      match rest with
      | b1 :: b2 :: _ =>
        if (acceptRange p0.toNat).1 ≤ b1.toNat ∧ b1.toNat ≤ (acceptRange p0.toNat).2 ∧
            isCont b2 = true then
          (p0.toNat % 16 * 4096 + b1.toNat % 64 * 64 + b2.toNat % 64, 3)
        else (RuneError, 1)
      | _ => (RuneError, 1)
    else if p0.toNat < 0xF5 then
      match rest with
      | b1 :: b2 :: b3 :: _ =>
        if (acceptRange p0.toNat).1 ≤ b1.toNat ∧ b1.toNat ≤ (acceptRange p0.toNat).2 ∧
            isCont b2 = true ∧ isCont b3 = true then
          (p0.toNat % 8 * 262144 + b1.toNat % 64 * 4096 + b2.toNat % 64 * 64 + b3.toNat % 64, 4)
        else (RuneError, 1)
      | _ => (RuneError, 1)
    else (RuneError, 1)

/-- Whether the Go string is valid UTF-8 (`utf8.Valid`): decoding it rune by rune never meets
an invalid byte.  The first argument bounds the number of runes. -/
def validLoop : Nat → List UInt8 → Bool
  | _, [] => true
  | 0, _ :: _ => false
  | fuel + 1, b :: rest =>
    if (decodeRune (b :: rest)).1 = RuneError ∧ (decodeRune (b :: rest)).2 = 1 then false
    else validLoop fuel ((b :: rest).drop (decodeRune (b :: rest)).2)

/-- `utf8.Valid`. -/
def validUTF8 (s : GoString) : Bool :=
  validLoop s.length s

/-- The Go string coerced to valid UTF-8: every byte that `utf8.DecodeRune` rejects is
replaced by the encoding of U+FFFD.  The first argument bounds the number of runes. -/
def toValidLoop : Nat → List UInt8 → List UInt8
  | _, [] => []
  | 0, _ :: _ => []
  | fuel + 1, b :: rest =>
    if (decodeRune (b :: rest)).1 = RuneError ∧ (decodeRune (b :: rest)).2 = 1 then
      [0xEF, 0xBF, 0xBD] ++ toValidLoop fuel rest
    else
      (b :: rest).take (decodeRune (b :: rest)).2 ++
        toValidLoop fuel ((b :: rest).drop (decodeRune (b :: rest)).2)

/-- The Go string coerced to valid UTF-8. -/
def toValidUTF8 (s : GoString) : GoString :=
  toValidLoop s.length s

/-- The table `hex` of `encode.go`: the digit of a value below 16. -/
def hexDigit (n : Nat) : UInt8 :=
  if n < 10 then UInt8.ofNat (0x30 + n) else UInt8.ofNat (0x57 + n)

/-- The table `htmlSafeSet` of `encode.go`: the ASCII bytes that are written as they are. -/
def htmlSafe (b : Nat) : Bool :=
  decide (0x20 ≤ b) && decide (b < 0x80) && b != 0x22 && b != 0x26 && b != 0x3C && b != 0x3E
    && b != 0x5C

/-- The escape that the string encoder writes for an ASCII byte outside `htmlSafeSet`:
a backslash form for the backslash, the quote and five control bytes, and `\u00XX` for the
other control bytes and for `<`, `>`, `&`.  (Older releases of the library write `\u0008` and
`\u000c` for backspace and form feed; the decoder reads both forms alike.) -/
def escapeByte (b : UInt8) : List UInt8 :=
  if b.toNat = 0x5C ∨ b.toNat = 0x22 then [0x5C, b]
  else if b.toNat = 0x08 then [0x5C, 0x62]
  else if b.toNat = 0x0C then [0x5C, 0x66]
  else if b.toNat = 0x0A then [0x5C, 0x6E]
  else if b.toNat = 0x0D then [0x5C, 0x72]
  else if b.toNat = 0x09 then [0x5C, 0x74]
  else [0x5C, 0x75, 0x30, 0x30, hexDigit (b.toNat / 16), hexDigit (b.toNat % 16)]

/-- The loop of the string encoder (`appendString` of `encode.go`, `escapeHTML` set), on the
bytes from index `i` on.  The first argument bounds the number of iterations. -/
def appendStringLoop : Nat → List UInt8 → List UInt8
  | _, [] => []
  | 0, _ :: _ => []
  | fuel + 1, b :: rest =>
    if b.toNat < 0x80 then
      if htmlSafe b.toNat then b :: appendStringLoop fuel rest
      else escapeByte b ++ appendStringLoop fuel rest
    else if (decodeRune (b :: rest)).1 = RuneError ∧ (decodeRune (b :: rest)).2 = 1 then
      [0x5C, 0x75, 0x66, 0x66, 0x66, 0x64] ++ appendStringLoop fuel rest
    else if (decodeRune (b :: rest)).1 = 0x2028 ∨ (decodeRune (b :: rest)).1 = 0x2029 then
      [0x5C, 0x75, 0x32, 0x30, 0x32, hexDigit ((decodeRune (b :: rest)).1 % 16)] ++
        appendStringLoop fuel ((b :: rest).drop (decodeRune (b :: rest)).2)
    else
      (b :: rest).take (decodeRune (b :: rest)).2 ++
        appendStringLoop fuel ((b :: rest).drop (decodeRune (b :: rest)).2)

/-- The JSON string literal for a Go string: `appendString`. -/
def appendString (src : GoString) : List UInt8 :=
  0x22 :: (appendStringLoop src.length src ++ [0x22])

/-- The decimal digits of a natural number, most significant first.  The first argument
bounds the number of digits. -/
def natDigits : Nat → Nat → List UInt8
  | 0, _ => []
  | fuel + 1, n =>
    if n < 10 then [UInt8.ofNat (0x30 + n)]
    else natDigits fuel (n / 10) ++ [UInt8.ofNat (0x30 + n % 10)]

/-- `strconv.AppendInt(dst, i, 10)`. -/
def appendInt (i : Int) : List UInt8 :=
  if i < 0 then 0x2D :: natDigits (i.natAbs + 1) i.natAbs
  else natDigits (i.natAbs + 1) i.natAbs

/-- `json.Marshal(t)` for a `Task`: the fields in declaration order under their JSON names,
`id`, `topic`, `message` from the struct tags and the Go names for the untagged fields. -/
def Marshal (t : Task) : List UInt8 :=
  lit "\x7b\"id\":" ++ appendString t.Id ++
  lit ",\"topic\":" ++ appendString t.Topic ++
  lit ",\"message\":" ++ appendString t.Message ++
  lit ",\"Token\":" ++ appendString t.Token ++
  lit ",\"DequeueCount\":" ++ appendInt t.DequeueCount ++
  lit ",\"Result\":\x7b\"State\":" ++ appendInt t.Result.State ++
  lit ",\"Message\":" ++ appendString t.Result.Message ++ lit "\x7d\x7d"

/-- `func (t Task) Bytes() []byte`; `json.Marshal` has no error for this struct. -/
def Task.Bytes (t : Task) : List UInt8 :=
  Marshal t

/-- `func (t Task) String() string`. -/
def Task.String (t : Task) : GoString :=
  t.Bytes

/-- A parsed JSON value.  A number keeps its literal; a string is unquoted. -/
inductive Json where
  | null
  | bool (b : Bool)
  | num (literal : List UInt8)
  | str (s : GoString)
  | arr (xs : List Json)
  | obj (members : List (GoString × Json))

/-- Skip JSON white space (`isSpace` of `scanner.go`). -/
def skipSpace : List UInt8 → List UInt8
  | [] => []
  | c :: rest =>
    if c.toNat = 0x20 ∨ c.toNat = 0x09 ∨ c.toNat = 0x0D ∨ c.toNat = 0x0A then skipSpace rest
    else c :: rest

/-- The value of a hexadecimal digit. -/
def hexVal (c : UInt8) : Option Nat :=
  if 0x30 ≤ c.toNat ∧ c.toNat ≤ 0x39 then some (c.toNat - 0x30)
  else if 0x61 ≤ c.toNat ∧ c.toNat ≤ 0x66 then some (c.toNat - 0x61 + 10)
  else if 0x41 ≤ c.toNat ∧ c.toNat ≤ 0x46 then some (c.toNat - 0x41 + 10)
  else none

/-- `getu4` of `decode.go`: the code unit of a `\uXXXX` escape at the head of `s`, with the
input after it. -/
def getu4 (s : List UInt8) : Option (Nat × List UInt8) :=
  match s with
  | bs :: u :: a :: b :: c :: d :: rest =>
    if bs.toNat = 0x5C ∧ u.toNat = 0x75 then
      match hexVal a, hexVal b, hexVal c, hexVal d with
      | some x, some y, some z, some w => some (x * 4096 + y * 256 + z * 16 + w, rest)
      | _, _, _, _ => none
    else none
  | _ => none

/-- The byte that a one-letter escape stands for. -/
def unescape (e : UInt8) : Option UInt8 :=
  if e.toNat = 0x22 ∨ e.toNat = 0x5C ∨ e.toNat = 0x2F then some e
  else if e.toNat = 0x62 then some 0x08
  else if e.toNat = 0x66 then some 0x0C
  else if e.toNat = 0x6E then some 0x0A
  else if e.toNat = 0x72 then some 0x0D
  else if e.toNat = 0x74 then some 0x09
  else none

/-- Scan a JSON string literal after its opening quote and unquote it (`unquoteBytes` of
`decode.go` on the literal delimited by `scanner.go`): the Go string it denotes, coerced to
valid UTF-8, and the input after the closing quote; `none` for a syntax error.  The first
argument bounds the number of iterations. -/
def scanString : Nat → List UInt8 → Option (GoString × List UInt8)
  | 0, _ => none
  | _ + 1, [] => none
  | fuel + 1, c :: rest =>
    if c.toNat = 0x22 then some ([], rest)
    else if c.toNat = 0x5C then
      match rest with
      | [] => none
      | e :: rest1 =>
        if e.toNat = 0x75 then
          match getu4 (c :: rest) with
          | none => none
          | some (rr, rest2) =>
            if 0xD800 ≤ rr ∧ rr < 0xE000 then
              match getu4 rest2 with
              | some (rr1, rest3) =>
                if rr < 0xDC00 ∧ 0xDC00 ≤ rr1 ∧ rr1 < 0xE000 then
                  (scanString fuel rest3).map
                    (fun p => (encodeRune ((rr - 0xD800) * 1024 + (rr1 - 0xDC00) + 0x10000)
                      ++ p.1, p.2))
                else (scanString fuel rest2).map (fun p => (encodeRune RuneError ++ p.1, p.2))
              | none => (scanString fuel rest2).map (fun p => (encodeRune RuneError ++ p.1, p.2))
            else (scanString fuel rest2).map (fun p => (encodeRune rr ++ p.1, p.2))
        else
          match unescape e with
          | none => none
          | some b => (scanString fuel rest1).map (fun p => (b :: p.1, p.2))
    else if c.toNat < 0x20 then none
    else if c.toNat < 0x80 then (scanString fuel rest).map (fun p => (c :: p.1, p.2))
    else
      (scanString fuel ((c :: rest).drop (decodeRune (c :: rest)).2)).map
        (fun p => (encodeRune (decodeRune (c :: rest)).1 ++ p.1, p.2))

/-- Split off the leading decimal digits. -/
def spanDigits : List UInt8 → List UInt8 × List UInt8
  | [] => ([], [])
  | c :: rest =>
    if 0x30 ≤ c.toNat ∧ c.toNat ≤ 0x39 then ((c :: (spanDigits rest).1), (spanDigits rest).2)
    else ([], c :: rest)

/-- The optional fraction of a number literal: the part read and the input after it. -/
def scanFrac (s : List UInt8) : Option (List UInt8 × List UInt8) :=
  match s with
  | c :: rest =>
    if c.toNat = 0x2E then
      if (spanDigits rest).1 = [] then none
      else some (c :: (spanDigits rest).1, (spanDigits rest).2)
    else some ([], s)
  | [] => some ([], s)

/-- The optional exponent of a number literal. -/
def scanExp (s : List UInt8) : Option (List UInt8 × List UInt8) :=
  match s with
  | e :: rest =>
    if e.toNat = 0x65 ∨ e.toNat = 0x45 then
      match rest with
      | sg :: rest1 =>
        if sg.toNat = 0x2B ∨ sg.toNat = 0x2D then
          if (spanDigits rest1).1 = [] then none
          else some (e :: sg :: (spanDigits rest1).1, (spanDigits rest1).2)
        else if (spanDigits rest).1 = [] then none
        else some (e :: (spanDigits rest).1, (spanDigits rest).2)
      | [] => none
    else some ([], s)
  | [] => some ([], s)

/-- The integer part of a number literal, after the optional minus sign: `0`, or a digit
from 1 to 9 followed by digits. -/
def scanIntPart (s : List UInt8) : Option (List UInt8 × List UInt8) :=
  match s with
  | c :: rest =>
    if c.toNat = 0x30 then some ([c], rest)
    else if 0x31 ≤ c.toNat ∧ c.toNat ≤ 0x39 then
      some (c :: (spanDigits rest).1, (spanDigits rest).2)
    else none
  | [] => none

/-- The number literal after the optional sign. -/
def scanUnsigned (s : List UInt8) : Option (List UInt8 × List UInt8) :=
  match scanIntPart s with
  | none => none
  | some (ip, r1) =>
    match scanFrac r1 with
    | none => none
    | some (fp, r2) =>
      match scanExp r2 with
      | none => none
      | some (ep, r3) => some (ip ++ fp ++ ep, r3)

/-- Scan a JSON number literal (the number states of `scanner.go`). -/
def scanNumber (s : List UInt8) : Option (List UInt8 × List UInt8) :=
  match s with
  | c :: rest =>
    if c.toNat = 0x2D then (scanUnsigned rest).map (fun p => (c :: p.1, p.2))
    else scanUnsigned s
  | [] => none

/-- Strip the given literal from the head of the input. -/
def stripLiteral : List UInt8 → List UInt8 → Option (List UInt8)
  | [], s => some s
  | _ :: _, [] => none
  | a :: as, c :: rest => if a.toNat = c.toNat then stripLiteral as rest else none

/-- The elements of a JSON array after `[` and white space, up to and including `]`; `pv`
parses one value.  The first argument bounds the number of elements. -/
def parseElements (pv : List UInt8 → Option (Json × List UInt8)) :
    Nat → List UInt8 → Option (List Json × List UInt8)
  | 0, _ => none
  | fuel + 1, s =>
    match pv s with
    | none => none
    | some (v, r1) =>
      match skipSpace r1 with
      | c :: r2 =>
        if c.toNat = 0x2C then
          (parseElements pv fuel (skipSpace r2)).map (fun p => (v :: p.1, p.2))
        else if c.toNat = 0x5D then some ([v], r2)
        else none
      | [] => none

/-- The members of a JSON object after `{` and white space, or after `,` and white space, up
to and including `}`; `pv` parses one value.  The first argument bounds the number of
members. -/
def parseMembers (pv : List UInt8 → Option (Json × List UInt8)) :
    Nat → List UInt8 → Option (List (GoString × Json) × List UInt8)
  | 0, _ => none
  | fuel + 1, s =>
    match s with
    | q :: r0 =>
      if q.toNat = 0x22 then
        match scanString r0.length r0 with
        | none => none
        | some (key, r1) =>
          match skipSpace r1 with
          | colon :: r2 =>
            if colon.toNat = 0x3A then
              match pv (skipSpace r2) with
              | none => none
              | some (v, r3) =>
                match skipSpace r3 with
                | c :: r4 =>
                  if c.toNat = 0x2C then
                    (parseMembers pv fuel (skipSpace r4)).map (fun p => ((key, v) :: p.1, p.2))
                  else if c.toNat = 0x7D then some ([(key, v)], r4)
                  else none
                | [] => none
            else none
          | [] => none
      else none
    | [] => none

/-- Parse one JSON value at the head of the input (white space already skipped), with the
input after it; `none` for a syntax error.  The first argument bounds the nesting depth. -/
def parseValue : Nat → List UInt8 → Option (Json × List UInt8)
  | 0, _ => none
  | _ + 1, [] => none
  | fuel + 1, c :: rest =>
    if c.toNat = 0x7B then
      match skipSpace rest with
      | c1 :: r1 =>
        if c1.toNat = 0x7D then some (Json.obj [], r1)
        else (parseMembers (parseValue fuel) (c1 :: r1).length (c1 :: r1)).map
          (fun p => (Json.obj p.1, p.2))
      | [] => none
    else if c.toNat = 0x5B then
      match skipSpace rest with
      | c1 :: r1 =>
        if c1.toNat = 0x5D then some (Json.arr [], r1)
        else (parseElements (parseValue fuel) (c1 :: r1).length (c1 :: r1)).map
          (fun p => (Json.arr p.1, p.2))
      | [] => none
    else if c.toNat = 0x22 then
      (scanString rest.length rest).map (fun p => (Json.str p.1, p.2))
    else if c.toNat = 0x74 then
      (stripLiteral (lit "rue") rest).map (fun r => (Json.bool true, r))
    else if c.toNat = 0x66 then
      (stripLiteral (lit "alse") rest).map (fun r => (Json.bool false, r))
    else if c.toNat = 0x6E then
      (stripLiteral (lit "ull") rest).map (fun r => (Json.null, r))
    else (scanNumber (c :: rest)).map (fun p => (Json.num p.1, p.2))

/-- Parse a complete JSON text: one value between optional white space (`checkValid`). -/
def parseJson (data : List UInt8) : Option Json :=
  match parseValue data.length (skipSpace data) with
  | none => none
  | some (v, rest) => if skipSpace rest = [] then some v else none

/-- The value of a string of decimal digits, after the value `acc` of the digits before it;
`none` when a byte is not a digit. -/
def digitsVal : Nat → List UInt8 → Option Nat
  | acc, [] => some acc
  | acc, c :: rest =>
    if 0x30 ≤ c.toNat ∧ c.toNat ≤ 0x39 then digitsVal (acc * 10 + (c.toNat - 0x30)) rest
    else none

/-- `strconv.ParseInt(s, 10, 64)` on a JSON number literal: the integer it denotes, when it
is an integer literal within the `int64` range. -/
def parseInt64 (s : List UInt8) : Option Int :=
  match s with
  | [] => none
  | c :: rest =>
    if c.toNat = 0x2D then
      match rest with
      | [] => none
      | _ :: _ =>
        match digitsVal 0 rest with
        | some n => if n ≤ 2 ^ 63 then some (-(n : Int)) else none
        | none => none
    else
      match digitsVal 0 (c :: rest) with
      | some n => if n < 2 ^ 63 then some (n : Int) else none
      | none => none

/-- The upper-case form of an ASCII letter, `none` for another byte. -/
def upperLetter (b : UInt8) : Option Nat :=
  if 0x41 ≤ b.toNat ∧ b.toNat ≤ 0x5A then some b.toNat
  else if 0x61 ≤ b.toNat ∧ b.toNat ≤ 0x7A then some (b.toNat - 0x20)
  else none

/-- The case-insensitive match of a field name `s`, ASCII, with a key `t` (`equalFoldRight`
of `fold.go`): letters match in either case, and the Kelvin sign and the long s match the
letters k and s. -/
def equalFold : List UInt8 → List UInt8 → Bool
  | [], t => t.isEmpty
  | _ :: _, [] => false
  | sb :: s, tb :: t =>
    if tb.toNat < 0x80 then
      if sb.toNat = tb.toNat then equalFold s t
      else
        match upperLetter sb with
        | some u => if upperLetter tb = some u then equalFold s t else false
        | none => false
    else if upperLetter sb = some 0x53 then
      if (decodeRune (tb :: t)).1 = 0x17F then
        equalFold s ((tb :: t).drop (decodeRune (tb :: t)).2)
      else false
    else if upperLetter sb = some 0x4B then
      if (decodeRune (tb :: t)).1 = 0x212A then
        equalFold s ((tb :: t).drop (decodeRune (tb :: t)).2)
      else false
    else false

/-- The field that a key selects (`object` of `decode.go`): the field with exactly that
name, else the first field whose name matches ignoring case. -/
def findField {α : Type} (fields : List (GoString × α)) (key : GoString) : Option α :=
  match fields.find? (fun f => decide (f.1 = key)) with
  | some f => some f.2
  | none =>
    match fields.find? (fun f => equalFold f.1 key) with
    | some f => some f.2
    | none => none

/-- The error of `json.Unmarshal` for a text that is not JSON. -/
def jsonSyntaxError : Error := Error.other "json: syntax error"

/-- The error of `json.Unmarshal` for a JSON value that does not fit the Go type. -/
def jsonTypeError : Error := Error.other "json: cannot unmarshal"

/-- `saveError` of `decode.go`: the first error is kept. -/
def saveError (old : Option Error) (err : Error) : Option Error :=
  match old with
  | some e => some e
  | none => some err

/-- Store a JSON value into a `string` field: a string is stored, `null` leaves the field,
any other value is a type error. -/
def storeString (v : Json) (old : GoString) (err : Option Error) : GoString × Option Error :=
  match v with
  | Json.str s => (s, err)
  | Json.null => (old, err)
  | _ => (old, saveError err jsonTypeError)

/-- Store a JSON value into an `int` or `int64` field. -/
def storeInt (v : Json) (old : Int) (err : Option Error) : Int × Option Error :=
  match v with
  | Json.num literal =>
    match parseInt64 literal with
    | some n => (n, err)
    | none => (old, saveError err jsonTypeError)
  | Json.null => (old, err)
  | _ => (old, saveError err jsonTypeError)

/-- The fields of `Result`, by JSON name. -/
inductive ResultField where
  | State
  | Message
  deriving DecidableEq

def resultFields : List (GoString × ResultField) :=
  [(lit "State", ResultField.State), (lit "Message", ResultField.Message)]

/-- The fields of `Task`, by JSON name, in declaration order. -/
inductive TaskField where
  | Id
  | Topic
  | Message
  | Token
  | DequeueCount
  | Result
  deriving DecidableEq

def taskFields : List (GoString × TaskField) :=
  [(lit "id", TaskField.Id), (lit "topic", TaskField.Topic), (lit "message", TaskField.Message),
   (lit "Token", TaskField.Token), (lit "DequeueCount", TaskField.DequeueCount),
   (lit "Result", TaskField.Result)]

/-- Decode the members of a JSON object into a `Result`, in their order. -/
def decodeResultMembers : List (GoString × Json) → Result × Option Error → Result × Option Error
  | [], acc => acc
  | (key, v) :: rest, (r, err) =>
    match findField resultFields key with
    | some ResultField.State =>
      decodeResultMembers rest
        ({ r with State := (storeInt v r.State err).1 }, (storeInt v r.State err).2)
    | some ResultField.Message =>
      decodeResultMembers rest
        ({ r with Message := (storeString v r.Message err).1 }, (storeString v r.Message err).2)
    | none => decodeResultMembers rest (r, err)

/-- Store a JSON value into the field `Result`. -/
def storeResult (v : Json) (old : Result) (err : Option Error) : Result × Option Error :=
  match v with
  | Json.obj members => decodeResultMembers members (old, err)
  | Json.null => (old, err)
  | _ => (old, saveError err jsonTypeError)

/-- Decode the members of a JSON object into a `Task`, in their order. -/
def decodeTaskMembers : List (GoString × Json) → Task × Option Error → Task × Option Error
  | [], acc => acc
  | (key, v) :: rest, (t, err) =>
    match findField taskFields key with
    | some TaskField.Id =>
      decodeTaskMembers rest
        ({ t with Id := (storeString v t.Id err).1 }, (storeString v t.Id err).2)
    | some TaskField.Topic =>
      decodeTaskMembers rest
        ({ t with Topic := (storeString v t.Topic err).1 }, (storeString v t.Topic err).2)
    | some TaskField.Message =>
      decodeTaskMembers rest
        ({ t with Message := (storeString v t.Message err).1 }, (storeString v t.Message err).2)
    | some TaskField.Token =>
      decodeTaskMembers rest
        ({ t with Token := (storeString v t.Token err).1 }, (storeString v t.Token err).2)
    | some TaskField.DequeueCount =>
      decodeTaskMembers rest
        ({ t with DequeueCount := (storeInt v t.DequeueCount err).1 },
          (storeInt v t.DequeueCount err).2)
    | some TaskField.Result =>
      decodeTaskMembers rest
        ({ t with Result := (storeResult v t.Result err).1 }, (storeResult v t.Result err).2)
    | none => decodeTaskMembers rest (t, err)

/-- The zero value of `Task`. -/
def zeroTask : Task :=
  { Id := [], Topic := [], Message := [], Token := [], DequeueCount := 0,
    Result := { State := 0, Message := [] } }

/-- `json.Unmarshal(data, &t)` for `t *Task`: a syntax error leaves `t` as it is; otherwise
an object is decoded member by member, `null` changes nothing, and any other value is a type
error. -/
def Unmarshal (data : List UInt8) (t : Task) : Task × Option Error :=
  match parseJson data with
  | none => (t, some jsonSyntaxError)
  | some (Json.obj members) => decodeTaskMembers members (t, none)
  | some Json.null => (t, none)
  | some _ => (t, some jsonTypeError)

/-- `func DecodeBytesTask(b []byte) (t Task, err error)`. -/
def DecodeBytesTask (b : List UInt8) : Task × Option Error :=
  Unmarshal b zeroTask

/-- `func DecodeStringTask(s string) (t Task, err error)`. -/
def DecodeStringTask (s : GoString) : Task × Option Error :=
  DecodeBytesTask s

/-! ## job_control.go: Start, Stop, WaitStop -/

/-- `func (j *Job) Start()`: the flag; the goroutines that `processJob` starts are the
producers (`pullCycle`, `handOff`) and the executors (`processTask`). -/
def Job.Start (j : Job) : Job :=
  if j.running then j else { j with running := true }

/-- `func (j *Job) Stop()`. -/
def Job.Stop (j : Job) : Job :=
  { j with running := false }

/-- What a call of `WaitStop` leaves behind: the engine, the returned error, the calls of
`time.Sleep` it made and the durations of the timers (`time.After`) it waited on. -/
structure WaitStopped where
  job : Job
  err : Option Error
  trace : List Event
  timers : List Int

/-- `func (j *Job) WaitStop(timeout time.Duration) error`, called after any earlier call has
returned.  `deadlineFirst d` is the outcome of the `select`: whether the timer of duration
`d` fires before the channel is closed, that is before `wg.Wait()` has returned. -/
def Job.WaitStop (deadlineFirst : Int → Bool) (j : Job) (timeout : Int) : WaitStopped :=
  if j.stopOnce then { job := j, err := none, trace := [], timers := [] }
  else
    { job := { j.Sleep with stopOnce := true },
      err := if deadlineFirst (if timeout ≤ 0 then Second * 10 else timeout) then
               some Error.ErrTimeout
             else none,
      trace := [Event.timeSleep j.Sleep.sleepy],
      timers := [if timeout ≤ 0 then Second * 10 else timeout] }

/-! ## worker.go: pullTask -/

/-- Where one iteration of the loop of `pullTask` ends: at one of its three `continue`
statements, at the hand-off of a task to the channel `pipe`, or in a panic of `Dequeue`
(nothing recovers a panic in this goroutine). -/
inductive Pull where
  | dequeueError (err : Error)
  | empty
  | decodeError (err : Error)
  | task (t : Task)
  | crashed (e : Iface)

/-- What one iteration of the loop of `pullTask` leaves behind, up to the hand-off. -/
structure Pulled where
  job : Job
  trace : List Event
  pull : Pull

/-- The test `err != nil && err != queue.ErrNil`. -/
def isRealError (err : Option Error) : Bool :=
  match err with
  | none => false
  | some e => decide (e ≠ Error.ErrNil)

/-- The iteration from `DecodeStringTask(message)` on; `taskCount` has been incremented. -/
def pullDecode (j : Job) (message token : GoString) (dequeueCount : Int) : Pulled :=
  match (DecodeStringTask message).2 with
  | some err =>
    { job := Job.Sleep { j with taskErrCount := addInt64 j.taskErrCount 1 },
      trace := [Event.logDecodeError err message,
        Event.timeSleep (Job.Sleep { j with taskErrCount := addInt64 j.taskErrCount 1 }).sleepy],
      pull := Pull.decodeError err }
  | none =>
    { job := j.ResetSleep, trace := [],
      pull := Pull.task
        { (if (DecodeStringTask message).1.Topic != [] then
              { (DecodeStringTask message).1 with Token := token }
            else (DecodeStringTask message).1) with DequeueCount := dequeueCount } }

/-- The iteration after `Dequeue` has returned and `pullCount` has been incremented. -/
def pullReturned (j : Job) (message token : GoString) (dequeueCount : Int)
    (err : Option Error) : Pulled :=
  if isRealError err then
    { job := Job.Sleep { j with pullErrCount := addInt64 j.pullErrCount 1 },
      trace := [Event.logDequeueError (err.getD Error.ErrNil) message,
        Event.timeSleep (Job.Sleep { j with pullErrCount := addInt64 j.pullErrCount 1 }).sleepy],
      pull := Pull.dequeueError (err.getD Error.ErrNil) }
  else if err = some Error.ErrNil ∨ message = [] then
    { job := Job.Sleep { j with pullEmptyCount := addInt64 j.pullEmptyCount 1 },
      trace := [Event.timeSleep
        (Job.Sleep { j with pullEmptyCount := addInt64 j.pullEmptyCount 1 }).sleepy],
      pull := Pull.empty }
  else pullDecode { j with taskCount := addInt64 j.taskCount 1 } message token dequeueCount

/-- One iteration of the loop of `pullTask`, up to the hand-off: `Dequeue` is called with the
`extra` slice of the worker as one variadic argument. -/
def pullCycle (w : WorkerWithFunc) (j : Job) : Pulled :=
  match w.q.Dequeue w.topic [Iface.slice w.extra] with
  | Call.panicked e =>
    { job := j, trace := [Event.dequeue w.topic [Iface.slice w.extra]], pull := Pull.crashed e }
  | Call.ret (message, token, dequeueCount, err) =>
    { job := (pullReturned { j with pullCount := addInt64 j.pullCount 1 } message token
        dequeueCount err).job,
      trace := Event.dequeue w.topic [Iface.slice w.extra] ::
        (pullReturned { j with pullCount := addInt64 j.pullCount 1 } message token
          dequeueCount err).trace,
      pull := (pullReturned { j with pullCount := addInt64 j.pullCount 1 } message token
        dequeueCount err).pull }

/-- The five counters that the producers update: `pull`, `pull_err`, `pull_empty`, `task`,
`task_err`. -/
def Job.pullCounters (j : Job) : Int × Int × Int × Int × Int :=
  (j.pullCount, j.pullErrCount, j.pullEmptyCount, j.taskCount, j.taskErrCount)

/-- Whether the iteration ended in a panic. -/
def Pull.isCrashed : Pull → Bool
  | .crashed _ => true
  | _ => false

/-- Successive iterations of producer loops on one engine; each entry is the worker whose
producer runs the iteration, with its backend as it answers at that time.  A panic ends the
run. -/
def pullCycles (j : Job) : List WorkerWithFunc → Job
  | [] => j
  | w :: ws => if (pullCycle w j).pull.isCrashed then j else pullCycles (pullCycle w j).job ws

/-- One round of the waiting loop of the hand-off: the two flags as the loop reads them, and
whether the send on `pipe` succeeds before the ticker fires. -/
structure Round where
  running : Bool
  working : Bool
  sent : Bool

/-- How the hand-off of a task ends: pushed after some rounds of waiting, the goroutine
returned without pushing (the task is dropped), or still waiting after the rounds given. -/
inductive HandOff where
  | pushed (rounds : Nat)
  | exited (rounds : Nat)
  | waiting
  deriving DecidableEq, Repr

/-- The loop `for !push` of `pullTask`; `k` rounds have gone by. -/
def waitLoop : List Round → Nat → HandOff
  | [], _ => HandOff.waiting
  | r :: rs, k =>
    if r.running && r.working then HandOff.exited k
    else if r.sent then HandOff.pushed (k + 1)
    else waitLoop rs (k + 1)

/-- The hand-off of `pullTask`: the send without blocking succeeds when the channel, of
capacity `pipeCap`, holds fewer tasks; otherwise the waiting loop runs. -/
def handOff (w : WorkerWithFunc) (rounds : List Round) : HandOff :=
  if (w.pipe.length : Int) < w.pipeCap then HandOff.pushed 0 else waitLoop rounds 0

/-! ## Sample values for the producer -/

/-- A backend whose `Dequeue` gives the stated answer. -/
def dequeueQueue (r : Call (GoString × GoString × Int × Option Error)) : Queue :=
  { okQueue with Dequeue := fun _ _ => r }

/-- A worker for topic "t1" whose backend gives the stated answer to `Dequeue`. -/
def dequeueWorker (r : Call (GoString × GoString × Int × Option Error)) : WorkerWithFunc :=
  { sampleWorker (stateHandler 0) with q := dequeueQueue r }

/-- A worker for topic "t1" whose channel, of capacity 1, holds one task. -/
def fullWorker : WorkerWithFunc :=
  { sampleWorker (stateHandler 0) with pipe := [sampleTask "a" ""] }

/-- The extra parameters of the example: "instanceId", "groupId". -/
def sampleExtra : List Iface :=
  [Iface.str (lit "instanceId"), Iface.str (lit "groupId")]

/-- A raw message, not written by the enqueue helpers: a JSON object with the one member
"message". -/
def rawMessage : GoString := lit "\x7b\"message\":\"hi\"\x7d"

/-- An engine with `sampleWorker` registered for topic "t1". -/
def registeredJob : Job := (New.AddWorkerWithFunc (sampleWorker (stateHandler 0))).1

/-- An encoder that gives the textual encoding of task.go and never fails. -/
def taskEncode : Task → GoString × Option Error := fun t => (t.String, none)

/-- A handler that writes a token of its own into the task and stores Succeed. -/
def tokenHandler : Task → Ran :=
  fun t =>
    { task := { t with Token := lit "mine", Result := { State := StateSucceed, Message := [] } },
      panic := none }

/-- A worker for topic "t1" with the handler `tokenHandler`, whose backend gives the stated
answer to `Dequeue`. -/
def tokenWorker (r : Call (GoString × GoString × Int × Option Error)) : WorkerWithFunc :=
  { dequeueWorker r with worker := tokenHandler }

/-! ## Arithmetic lemmas -/

theorem wrapInt64_of_range (x : Int) (h1 : -(2 ^ 63) ≤ x) (h2 : x < 2 ^ 63) :
    wrapInt64 x = x := by
  unfold wrapInt64
  rw [Int.emod_eq_of_lt (by omega) (by omega)]
  omega

/-- The atomic increment adds one whenever the counter is below the largest `int64`. -/
theorem addInt64_one_of_lt (c : Int) (h1 : minInt64 ≤ c) (h2 : c < maxInt64) :
    addInt64 c 1 = c + 1 := by
  unfold minInt64 at h1
  unfold maxInt64 at h2
  unfold addInt64
  exact wrapInt64_of_range _ (by omega) (by omega)

/-! ## processTask: stage lemmas -/

theorem isAckState_iff (s : Int) : isAckState s = true ↔
    (s = StateSucceed ∨ s = StateFailedWithAck ∨ s = StateFailedWithRetryNumLimit) := by
  unfold isAckState StateSucceed StateFailedWithAck StateFailedWithRetryNumLimit StateFailed
  split_ifs <;> simp_all

theorem isErrState_iff (s : Int) : isErrState s = true ↔
    (s = StateFailed ∨ s = StateFailedWithAck) := by
  unfold isErrState StateSucceed StateFailedWithAck StateFailedWithRetryNumLimit StateFailed
  split_ifs <;> simp_all

theorem runBefore_job (j : Job) (t : Task) : (runBefore j t).job = j := by
  unfold runBefore; split <;> rfl

theorem runBefore_trace_countP (p : Event → Bool) (j : Job) (t : Task)
    (hp : p (Event.beforeCallback t) = false) : (runBefore j t).trace.countP p = 0 := by
  unfold runBefore; split <;> simp [hp]

theorem runAfter_job (j : Job) (t : Task) (tr : List Event) : (runAfter j t tr).job = j := by
  unfold runAfter; split <;> rfl

theorem runAfter_countP_isAck (j : Job) (t : Task) (tr : List Event) :
    (runAfter j t tr).trace.countP Event.isAck = tr.countP Event.isAck := by
  unfold runAfter; split <;> simp [List.countP_append, Event.isAck]

theorem runAfter_countP_isPanicCallback (j : Job) (t : Task) (tr : List Event) :
    (runAfter j t tr).trace.countP Event.isPanicCallback = tr.countP Event.isPanicCallback := by
  unfold runAfter; split <;> simp [List.countP_append, Event.isPanicCallback]

theorem runAck_job (w : WorkerWithFunc) (j : Job) (t : Task) (tr : List Event) (a : Bool) :
    (runAck w j t tr a).job = j := by
  unfold runAck
  split
  · split <;> simp [runAfter_job]
  · exact runAfter_job _ _ _

theorem runAck_countP_isAck (w : WorkerWithFunc) (j : Job) (t : Task) (tr : List Event)
    (a : Bool) :
    (runAck w j t tr a).trace.countP Event.isAck =
      tr.countP Event.isAck + (if a = true ∧ t.Token ≠ [] then 1 else 0) := by
  unfold runAck
  by_cases hc : a = true ∧ t.Token ≠ []
  · have hb : (a && t.Token != []) = true := by simp [hc.1, hc.2]
    rw [if_pos hb, if_pos hc]
    split <;> simp [runAfter_countP_isAck, List.countP_append, Event.isAck]
  · have hb : ¬ ((a && t.Token != []) = true) := by
      intro h
      simp at h
      exact hc ⟨h.1, h.2⟩
    rw [if_neg hb, if_neg hc, runAfter_countP_isAck]
    rfl

theorem runAck_countP_isPanicCallback (w : WorkerWithFunc) (j : Job) (t : Task)
    (tr : List Event) (a : Bool) :
    (runAck w j t tr a).trace.countP Event.isPanicCallback =
      tr.countP Event.isPanicCallback := by
  unfold runAck
  split
  · split <;> simp [runAfter_countP_isPanicCallback, List.countP_append, Event.isPanicCallback]
  · exact runAfter_countP_isPanicCallback _ _ _



theorem countResult_handleCount (j : Job) (s : Int) :
    (countResult j s).handleCount = addInt64 j.handleCount 1 := by
  unfold countResult; split <;> rfl

theorem countResult_handleErrCount (j : Job) (s : Int) :
    (countResult j s).handleErrCount =
      if isErrState s = true then addInt64 j.handleErrCount 1 else j.handleErrCount := by
  unfold countResult; split <;> rfl

theorem countResult_frame (j : Job) (s : Int) :
    (countResult j s).wg = j.wg ∧ (countResult j s).handlePanicCount = j.handlePanicCount ∧
    (countResult j s).taskPanicCallback = j.taskPanicCallback := by
  unfold countResult; split <;> exact ⟨rfl, rfl, rfl⟩

theorem handlerRun_wg (w : WorkerWithFunc) (j : Job) (task : Task) (x : Int) :
    handlerRun w { j with wg := x } task = handlerRun w j task := by
  unfold handlerRun runBefore
  cases j.taskBeforeCallback <;> rfl

theorem runBefore_wg (j : Job) (task : Task) (x : Int) :
    (runBefore { j with wg := x } task).task = (runBefore j task).task ∧
    (runBefore { j with wg := x } task).trace = (runBefore j task).trace ∧
    (runBefore { j with wg := x } task).panic = (runBefore j task).panic := by
  unfold runBefore
  cases j.taskBeforeCallback <;> exact ⟨rfl, rfl, rfl⟩

/-- The body when the handler is reached and returns. -/
theorem processTaskBody_of_ret (w : WorkerWithFunc) (j : Job) (task : Task) (r : Ran)
    (hrun : handlerRun w j task = some r) (hret : r.panic = none) :
    processTaskBody w j task =
      runAck w (countResult j r.task.Result.State) r.task
        ((runBefore j task).trace ++ [Event.exec (runBefore j task).task])
        (isAckState r.task.Result.State) := by
  unfold handlerRun at hrun
  unfold processTaskBody
  cases hb : (runBefore j task).panic with
  | some e => rw [hb] at hrun; cases hrun
  | none =>
    rw [hb] at hrun
    simp only [Option.some.injEq] at hrun
    subst hrun
    simp only []
    unfold runHandler
    rw [hret]

/-- The body when the handler is reached and panics. -/
theorem processTaskBody_of_panic (w : WorkerWithFunc) (j : Job) (task : Task) (r : Ran)
    (e : Iface) (hrun : handlerRun w j task = some r) (hpanic : r.panic = some e) :
    processTaskBody w j task =
      { job := j, task := r.task,
        trace := (runBefore j task).trace ++ [Event.exec (runBefore j task).task],
        panic := some e } := by
  unfold handlerRun at hrun
  unfold processTaskBody
  cases hb : (runBefore j task).panic with
  | some e => rw [hb] at hrun; cases hrun
  | none =>
    rw [hb] at hrun
    simp only [Option.some.injEq] at hrun
    subst hrun
    simp only []
    unfold runHandler
    rw [hpanic]

/-- The body when the handler is not reached: the before callback has panicked. -/
theorem processTaskBody_of_none (w : WorkerWithFunc) (j : Job) (task : Task)
    (hrun : handlerRun w j task = none) :
    (processTaskBody w j task).job = j ∧ (processTaskBody w j task).panic.isSome = true := by
  unfold handlerRun at hrun
  unfold processTaskBody
  cases hb : (runBefore j task).panic with
  | some e => exact ⟨rfl, rfl⟩
  | none => rw [hb] at hrun; cases hrun

theorem processTaskBody_job (w : WorkerWithFunc) (j : Job) (task : Task) :
    (processTaskBody w j task).job = j ∨
      ∃ s, (processTaskBody w j task).job = countResult j s := by
  cases hrun : handlerRun w j task with
  | none => exact Or.inl (processTaskBody_of_none w j task hrun).1
  | some r =>
    cases hp : r.panic with
    | none =>
      right
      exact ⟨_, by rw [processTaskBody_of_ret w j task r hrun hp, runAck_job]⟩
    | some e =>
      left
      rw [processTaskBody_of_panic w j task r e hrun hp]

theorem processTaskBody_frame (w : WorkerWithFunc) (j : Job) (task : Task) :
    (processTaskBody w j task).job.wg = j.wg ∧
    (processTaskBody w j task).job.handlePanicCount = j.handlePanicCount ∧
    (processTaskBody w j task).job.taskPanicCallback = j.taskPanicCallback := by
  rcases processTaskBody_job w j task with h | ⟨s, h⟩
  · rw [h]; exact ⟨rfl, rfl, rfl⟩
  · rw [h]; exact countResult_frame j s

theorem processTaskBody_countP_isPanicCallback (w : WorkerWithFunc) (j : Job) (task : Task) :
    (processTaskBody w j task).trace.countP Event.isPanicCallback = 0 := by
  have hb := runBefore_trace_countP Event.isPanicCallback j task rfl
  cases hrun : handlerRun w j task with
  | none =>
    unfold handlerRun at hrun
    unfold processTaskBody
    cases hp : (runBefore j task).panic with
    | some e => exact hb
    | none => rw [hp] at hrun; cases hrun
  | some r =>
    cases hp : r.panic with
    | none =>
      rw [processTaskBody_of_ret w j task r hrun hp, runAck_countP_isPanicCallback]
      simp [List.countP_append, hb, Event.isPanicCallback]
    | some e =>
      rw [processTaskBody_of_panic w j task r e hrun hp]
      simp [List.countP_append, hb, Event.isPanicCallback]

theorem processTaskDeferred_of_none (b : Body) (h : b.panic = none) :
    processTaskDeferred b =
      { job := { b.job with wg := b.job.wg - 1 }, task := b.task, trace := b.trace,
        panic := none } := by
  unfold processTaskDeferred
  rw [h]

theorem processTaskDeferred_countP_isAck (b : Body) :
    (processTaskDeferred b).trace.countP Event.isAck = b.trace.countP Event.isAck := by
  unfold processTaskDeferred
  cases b.panic with
  | none => rfl
  | some e =>
    cases b.job.taskPanicCallback <;> simp [List.countP_append, Event.isAck]

theorem processTaskDeferred_counts (b : Body) :
    (processTaskDeferred b).job.handleCount = b.job.handleCount ∧
    (processTaskDeferred b).job.handleErrCount = b.job.handleErrCount ∧
    (processTaskDeferred b).job.wg = b.job.wg - 1 := by
  unfold processTaskDeferred
  cases b.panic with
  | none => exact ⟨rfl, rfl, rfl⟩
  | some e =>
    cases b.job.taskPanicCallback <;> exact ⟨rfl, rfl, rfl⟩



theorem processTask_countP_isAck_of_ret (w : WorkerWithFunc) (j : Job) (task : Task) (r : Ran)
    (hrun : handlerRun w j task = some r) (hret : r.panic = none) :
    (processTask w j task).trace.countP Event.isAck =
      if isAckState r.task.Result.State = true ∧ r.task.Token ≠ [] then 1 else 0 := by
  unfold processTask
  rw [processTaskDeferred_countP_isAck,
    processTaskBody_of_ret w _ task r (by rw [handlerRun_wg]; exact hrun) hret,
    runAck_countP_isAck]
  have hb := runBefore_trace_countP Event.isAck { j with wg := j.wg + 1 } task rfl
  simp [List.countP_append, hb, Event.isAck]

/-- C1: when the handler of a task processed by `processTask` returns without panicking,
`AckMsg` of the queue is called exactly once if the result state is Succeed, FailedWithAck
or FailedWithRetryNumLimit and the token of the task is not empty, and is not called otherwise: not
for state Failed, not for a state code outside 0..3, not for an empty token. -/
theorem processTask_ack_iff (w : WorkerWithFunc) (j : Job) (task : Task) (r : Ran)
    (hrun : handlerRun w j task = some r) (hret : r.panic = none) :
    ((processTask w j task).trace.countP Event.isAck = 1 ↔
      ((r.task.Result.State = StateSucceed ∨ r.task.Result.State = StateFailedWithAck ∨
        r.task.Result.State = StateFailedWithRetryNumLimit) ∧ r.task.Token ≠ [])) ∧
    ((processTask w j task).trace.countP Event.isAck = 0 ↔
      ¬ ((r.task.Result.State = StateSucceed ∨ r.task.Result.State = StateFailedWithAck ∨
        r.task.Result.State = StateFailedWithRetryNumLimit) ∧ r.task.Token ≠ [])) ∧
    ((r.task.Result.State = StateFailed ∨ r.task.Result.State < 0 ∨ 3 < r.task.Result.State ∨
        r.task.Token = []) → (processTask w j task).trace.countP Event.isAck = 0) := by
  have h := processTask_countP_isAck_of_ret w j task r hrun hret
  have hiff := isAckState_iff r.task.Result.State
  by_cases hc : (r.task.Result.State = StateSucceed ∨ r.task.Result.State = StateFailedWithAck ∨
        r.task.Result.State = StateFailedWithRetryNumLimit) ∧ r.task.Token ≠ []
  · rw [if_pos ⟨hiff.2 hc.1, hc.2⟩] at h
    refine ⟨⟨fun _ => hc, fun _ => h⟩, ⟨fun h0 => by omega, fun hn => absurd hc hn⟩, ?_⟩
    intro hbad
    exfalso
    unfold StateSucceed StateFailedWithAck StateFailedWithRetryNumLimit at hc
    unfold StateFailed at hbad
    rcases hbad with hb | hb | hb | hb
    · omega
    · omega
    · omega
    · exact hc.2 hb
  · rw [if_neg (fun hh => hc ⟨hiff.1 hh.1, hh.2⟩)] at h
    exact ⟨⟨fun h1 => by omega, fun hp => absurd hp hc⟩, ⟨fun _ => hc, fun _ => h⟩, fun _ => h⟩

/-- Witness of C1: a handler storing FailedWithAck on a task with token "tok" is followed by
one `AckMsg` call. -/
theorem processTask_ack_iff_witness :
    (handlerRun (sampleWorker (stateHandler 2)) New (sampleTask "a" "tok") =
        some (stateHandler 2 (sampleTask "a" "tok")) ∧
      (stateHandler 2 (sampleTask "a" "tok")).panic = none) ∧
    (processTask (sampleWorker (stateHandler 2)) New (sampleTask "a" "tok")).trace.countP
      Event.isAck = 1 :=
  ⟨⟨rfl, rfl⟩,
   (processTask_ack_iff (sampleWorker (stateHandler 2)) New (sampleTask "a" "tok")
      (stateHandler 2 (sampleTask "a" "tok")) rfl rfl).1.2
      ⟨Or.inr (Or.inl rfl), by decide⟩⟩



theorem processTask_job_of_ret (w : WorkerWithFunc) (j : Job) (task : Task) (r : Ran)
    (hrun : handlerRun w j task = some r) (hret : r.panic = none) :
    (processTask w j task).job.handleCount = addInt64 j.handleCount 1 ∧
    (processTask w j task).job.handleErrCount =
      if isErrState r.task.Result.State = true then addInt64 j.handleErrCount 1
      else j.handleErrCount := by
  unfold processTask
  have hc := processTaskDeferred_counts (processTaskBody w { j with wg := j.wg + 1 } task)
  rw [hc.1, hc.2.1,
    processTaskBody_of_ret w _ task r (by rw [handlerRun_wg]; exact hrun) hret, runAck_job,
    countResult_handleCount, countResult_handleErrCount]
  exact ⟨rfl, rfl⟩

theorem processTask_job_of_panic (w : WorkerWithFunc) (j : Job) (task : Task) (r : Ran)
    (e : Iface) (hrun : handlerRun w j task = some r) (hpanic : r.panic = some e) :
    (processTask w j task).job.handleCount = j.handleCount ∧
    (processTask w j task).job.handleErrCount = j.handleErrCount ∧
    (processTask w j task).job.handlePanicCount = addInt64 j.handlePanicCount 1 ∧
    (processTask w j task).job.wg = j.wg := by
  unfold processTask
  rw [processTaskBody_of_panic w _ task r e (by rw [handlerRun_wg]; exact hrun) hpanic]
  unfold processTaskDeferred
  simp only []
  cases j.taskPanicCallback <;> simp

theorem processTask_job_of_none (w : WorkerWithFunc) (j : Job) (task : Task)
    (hrun : handlerRun w j task = none) :
    (processTask w j task).job.handleCount = j.handleCount := by
  unfold processTask
  have hc := processTaskDeferred_counts (processTaskBody w { j with wg := j.wg + 1 } task)
  rw [hc.1, (processTaskBody_of_none w _ task (by rw [handlerRun_wg]; exact hrun)).1]

/-- Counterexample to C2: in scenario S2 (one executor slot, the handler panics on "x" and
succeeds on "y") the call for "x" leaves `handle` at 0, and the final counters are
`handle_panic = 1` and `handle = 1`, not 2. -/
theorem processTask_handleCount_counterexample :
    (processTask (sampleWorker panicOnX) New (sampleTask "x" "")).job.handleCount = 0 ∧
    (processTasks (sampleWorker panicOnX) New
      [sampleTask "x" "", sampleTask "y" ""]).handlePanicCount = 1 ∧
    (processTasks (sampleWorker panicOnX) New
      [sampleTask "x" "", sampleTask "y" ""]).handleCount = 1 ∧
    (processTasks (sampleWorker panicOnX) New
      [sampleTask "x" "", sampleTask "y" ""]).handleCount ≠ 2 := by
  refine ⟨rfl, ?_, ?_, ?_⟩ <;> decide

/-- C2 (amended): a call of `processTask` increases `handle` by exactly 1 (the 64-bit atomic
add `addInt64`, see `addInt64_one_of_lt`) when the handler returns normally; it leaves
`handle` unchanged when the handler panics (then `handle_panic` increases by 1) and when the
handler is not reached; in scenario S2 the final counters are `handle_panic = 1` and
`handle = 1`. -/
theorem processTask_handleCount (w : WorkerWithFunc) (j : Job) (task : Task) :
    (∀ r, handlerRun w j task = some r → r.panic = none →
      (processTask w j task).job.handleCount = addInt64 j.handleCount 1) ∧
    (∀ r e, handlerRun w j task = some r → r.panic = some e →
      (processTask w j task).job.handleCount = j.handleCount ∧
      (processTask w j task).job.handlePanicCount = addInt64 j.handlePanicCount 1) ∧
    (handlerRun w j task = none →
      (processTask w j task).job.handleCount = j.handleCount) ∧
    ((processTasks (sampleWorker panicOnX) New
        [sampleTask "x" "", sampleTask "y" ""]).handlePanicCount = 1 ∧
      (processTasks (sampleWorker panicOnX) New
        [sampleTask "x" "", sampleTask "y" ""]).handleCount = 1) := by
  refine ⟨fun r hrun hret => (processTask_job_of_ret w j task r hrun hret).1,
    fun r e hrun hp => ⟨(processTask_job_of_panic w j task r e hrun hp).1,
      (processTask_job_of_panic w j task r e hrun hp).2.2.1⟩,
    processTask_job_of_none w j task, ?_, ?_⟩ <;> decide

/-- Witness of C2 (amended): the returning handler of S2 on "y" raises `handle` from 0 to 1,
the panicking one on "x" leaves it at 0. -/
theorem processTask_handleCount_witness :
    (processTask (sampleWorker panicOnX) New (sampleTask "y" "")).job.handleCount = 1 ∧
    (processTask (sampleWorker panicOnX) New (sampleTask "x" "")).job.handleCount = 0 :=
  ⟨(processTask_handleCount (sampleWorker panicOnX) New (sampleTask "y" "")).1
      (panicOnX (sampleTask "y" "")) rfl rfl,
   ((processTask_handleCount (sampleWorker panicOnX) New (sampleTask "x" "")).2.1
      (panicOnX (sampleTask "x" "")) (Iface.str (lit "x")) rfl rfl).1⟩

/-- C3: when the handler returns without panicking, `processTask` increases `handle_err` by
exactly 1 (the 64-bit atomic add `addInt64`, see `addInt64_one_of_lt`) if the result state is
Failed or FailedWithAck and leaves it unchanged otherwise, whatever the token and whatever
the queue answers to the acknowledgement. -/
theorem processTask_handleErrCount (w : WorkerWithFunc) (j : Job) (task : Task) (r : Ran)
    (hrun : handlerRun w j task = some r) (hret : r.panic = none) :
    ((r.task.Result.State = StateFailed ∨ r.task.Result.State = StateFailedWithAck) →
      (processTask w j task).job.handleErrCount = addInt64 j.handleErrCount 1) ∧
    (¬ (r.task.Result.State = StateFailed ∨ r.task.Result.State = StateFailedWithAck) →
      (processTask w j task).job.handleErrCount = j.handleErrCount) := by
  have h := (processTask_job_of_ret w j task r hrun hret).2
  have hiff := isErrState_iff r.task.Result.State
  constructor
  · intro hs
    rw [h, if_pos (hiff.2 hs)]
  · intro hs
    rw [h, if_neg (fun hh => hs (hiff.1 hh))]

/-- Witness of C3: a handler storing Failed on a task without token raises `handle_err`
from 0 to 1. -/
theorem processTask_handleErrCount_witness :
    (handlerRun (sampleWorker (stateHandler 1)) New (sampleTask "a" "") =
        some (stateHandler 1 (sampleTask "a" "")) ∧
      (stateHandler 1 (sampleTask "a" "")).panic = none) ∧
    (processTask (sampleWorker (stateHandler 1)) New (sampleTask "a" "")).job.handleErrCount =
      addInt64 New.handleErrCount 1 :=
  ⟨⟨rfl, rfl⟩,
   (processTask_handleErrCount (sampleWorker (stateHandler 1)) New (sampleTask "a" "")
      (stateHandler 1 (sampleTask "a" "")) rfl rfl).1 (Or.inl rfl)⟩



theorem runBefore_trace_filter (p : Event → Bool) (j : Job) (t : Task)
    (hp : p (Event.beforeCallback t) = false) : (runBefore j t).trace.filter p = [] := by
  unfold runBefore; split <;> simp [hp]

/-- Counterexample to C4: the handler returns normally (state Succeed) and the after
callback panics; the deferred function recovers that panic, so `handle_panic` goes from 0
to 1 and the panic callback is invoked although the handler did not panic. -/
theorem processTask_panic_counterexample :
    (handlerRun (sampleWorker (stateHandler 0))
        ((New.RegisterTaskAfterCallback panickingCallback).RegisterTaskPanicCallback
          quietPanicCallback) (sampleTask "a" "")).isSome = true ∧
    (stateHandler 0 (sampleTask "a" "")).panic.isNone = true ∧
    (processTask (sampleWorker (stateHandler 0))
        ((New.RegisterTaskAfterCallback panickingCallback).RegisterTaskPanicCallback
          quietPanicCallback) (sampleTask "a" "")).job.handlePanicCount = 1 ∧
    (processTask (sampleWorker (stateHandler 0))
        ((New.RegisterTaskAfterCallback panickingCallback).RegisterTaskPanicCallback
          quietPanicCallback) (sampleTask "a" "")).trace.countP Event.isPanicCallback = 1 := by
  refine ⟨rfl, rfl, ?_, ?_⟩ <;> decide

/-- C4 (amended): when the handler panics and the panic callback does not, `processTask`
returns normally, increases `handle_panic` by exactly 1, invokes the panic callback, when
one is set, exactly once with the task and the panic value, calls neither `AckMsg` nor the
after callback, and leaves the wait-group count as it was; when no call of the body (before
callback, handler, `AckMsg`, after callback) panics, `handle_panic` is unchanged and the
panic callback is not invoked. -/
theorem processTask_panic (w : WorkerWithFunc) (j : Job) (task : Task) :
    (∀ r e, handlerRun w j task = some r → r.panic = some e →
      (∀ cb, j.taskPanicCallback = some cb → (cb r.task e).panic = none) →
        (processTask w j task).panic = none ∧
        (processTask w j task).job.handlePanicCount = addInt64 j.handlePanicCount 1 ∧
        (j.taskPanicCallback.isSome = true →
          (processTask w j task).trace.filter Event.isPanicCallback =
            [Event.panicCallback r.task e]) ∧
        (processTask w j task).trace.countP Event.isAck = 0 ∧
        (processTask w j task).trace.countP Event.isAfterCallback = 0 ∧
        (processTask w j task).job.wg = j.wg) ∧
    ((processTaskBody w { j with wg := j.wg + 1 } task).panic = none →
        (processTask w j task).job.handlePanicCount = j.handlePanicCount ∧
        (processTask w j task).trace.countP Event.isPanicCallback = 0) := by
  constructor
  · intro r e hrun hp hcb
    have hjob := processTask_job_of_panic w j task r e hrun hp
    refine ⟨?_, hjob.2.2.1, ?_, ?_, ?_, hjob.2.2.2⟩
    · unfold processTask
      rw [processTaskBody_of_panic w _ task r e (by rw [handlerRun_wg]; exact hrun) hp]
      unfold processTaskDeferred
      simp only []
      cases hc : j.taskPanicCallback with
      | none => rfl
      | some cb => exact hcb cb hc
    · intro hset
      unfold processTask
      rw [processTaskBody_of_panic w _ task r e (by rw [handlerRun_wg]; exact hrun) hp]
      unfold processTaskDeferred
      simp only []
      cases hc : j.taskPanicCallback with
      | none => rw [hc] at hset; cases hset
      | some cb =>
        simp [List.filter_append, runBefore_trace_filter, Event.isPanicCallback]
    · unfold processTask
      rw [processTaskDeferred_countP_isAck,
        processTaskBody_of_panic w _ task r e (by rw [handlerRun_wg]; exact hrun) hp]
      simp [List.countP_append, runBefore_trace_countP, Event.isAck]
    · unfold processTask
      rw [processTaskBody_of_panic w _ task r e (by rw [handlerRun_wg]; exact hrun) hp]
      unfold processTaskDeferred
      simp only []
      cases hc : j.taskPanicCallback <;>
        simp [List.countP_append, runBefore_trace_countP, Event.isAfterCallback]
  · intro hbody
    unfold processTask
    rw [processTaskDeferred_of_none _ hbody]
    exact ⟨(processTaskBody_frame w _ task).2.1,
      processTaskBody_countP_isPanicCallback w _ task⟩

/-- Witness of C4 (amended): the handler of S2 panics on "x" with a panic callback set; a
handler that succeeds, with no callback set, leaves `handle_panic` at 0. -/
theorem processTask_panic_witness :
    (processTask (sampleWorker panicOnX) (New.RegisterTaskPanicCallback quietPanicCallback)
        (sampleTask "x" "tok")).job.handlePanicCount = 1 ∧
    (processTask (sampleWorker panicOnX) (New.RegisterTaskPanicCallback quietPanicCallback)
        (sampleTask "x" "tok")).trace.filter Event.isPanicCallback =
      [Event.panicCallback (sampleTask "x" "tok") (Iface.str (lit "x"))] ∧
    (processTask (sampleWorker (stateHandler 0)) New (sampleTask "a" "tok")).job.handlePanicCount
      = 0 :=
  ⟨((processTask_panic (sampleWorker panicOnX) (New.RegisterTaskPanicCallback quietPanicCallback)
        (sampleTask "x" "tok")).1 (panicOnX (sampleTask "x" "tok")) (Iface.str (lit "x")) rfl rfl
        (fun cb hcb => by cases hcb; rfl)).2.1,
   ((processTask_panic (sampleWorker panicOnX) (New.RegisterTaskPanicCallback quietPanicCallback)
        (sampleTask "x" "tok")).1 (panicOnX (sampleTask "x" "tok")) (Iface.str (lit "x")) rfl rfl
        (fun cb hcb => by cases hcb; rfl)).2.2.1 rfl,
   ((processTask_panic (sampleWorker (stateHandler 0)) New (sampleTask "a" "tok")).2 rfl).1⟩

/-! ## Adaptive sleep -/

theorem mulInt64_two_of_range (s : Int) (h0 : 0 ≤ s) (h1 : s < 2 ^ 62) :
    mulInt64 s 2 = 2 * s := by
  unfold mulInt64
  rw [wrapInt64_of_range _ (by omega) (by omega)]
  omega

theorem Sleep_frame (j : Job) :
    j.Sleep.initSleepy = j.initSleepy ∧ j.Sleep.maxSleepy = j.maxSleepy := by
  unfold Job.Sleep
  split_ifs <;> exact ⟨rfl, rfl⟩

/-- One `Sleep` in a state whose `sleepy` lies between 0 and a `maxSleepy` below 2^62. -/
theorem Sleep_sleepy_of_range (j : Job) (h0 : 0 ≤ j.sleepy) (h1 : j.sleepy ≤ j.maxSleepy)
    (h2 : j.maxSleepy < 2 ^ 62) : j.Sleep.sleepy = min j.maxSleepy (2 * j.sleepy) := by
  unfold Job.Sleep
  rw [mulInt64_two_of_range j.sleepy h0 (by omega)]
  split_ifs with ha hb hc
  · simp only []; omega
  · simp only []; omega
  · omega
  · simp at hb
    have := hb (by omega)
    omega



theorem SetSleepy_fields (j : Job) (init max : Int) (rest : List Int) :
    (j.SetSleepy init (max :: rest)).sleepy = init ∧
    (j.SetSleepy init (max :: rest)).initSleepy = init ∧
    (j.SetSleepy init (max :: rest)).maxSleepy = max :=
  ⟨rfl, rfl, rfl⟩

theorem SleepN_frame (j : Job) (n : Nat) :
    (j.SleepN n).initSleepy = j.initSleepy ∧ (j.SleepN n).maxSleepy = j.maxSleepy := by
  induction n with
  | zero => exact ⟨rfl, rfl⟩
  | succ n ih =>
    have h := Sleep_frame (j.SleepN n)
    exact ⟨h.1.trans ih.1, h.2.trans ih.2⟩

/-- The backoff law from a state with `0 ≤ sleepy ≤ maxSleepy < 2^62`. -/
theorem SleepN_backoff_of_range (j : Job) (n : Nat) (h0 : 0 ≤ j.sleepy)
    (h1 : j.sleepy ≤ j.maxSleepy) (h2 : j.maxSleepy < 2 ^ 62) :
    (j.SleepN n).sleepy = min j.maxSleepy (j.sleepy * 2 ^ n) := by
  induction n with
  | zero =>
    show j.sleepy = min j.maxSleepy (j.sleepy * 2 ^ 0)
    simp only [pow_zero, mul_one]
    omega
  | succ n ih =>
    have hf := SleepN_frame j n
    have hpos : 0 ≤ j.sleepy * 2 ^ n := Int.mul_nonneg h0 (by positivity)
    have hstep := Sleep_sleepy_of_range (j.SleepN n) (by rw [ih]; omega)
      (by rw [ih, hf.2]; omega) (by rw [hf.2]; exact h2)
    show (j.SleepN n).Sleep.sleepy = _
    rw [hstep, hf.2, ih]
    have hpow : j.sleepy * 2 ^ (n + 1) = 2 * (j.sleepy * 2 ^ n) := by ring
    rw [hpow]
    omega

/-- Counterexample to C5: after `SetSleepy(20ms, 10ms)` the value of `sleepy` is 20 ms
before and after a call of `Sleep`, whereas `min(max_sleepy, init_sleepy · 2^N)` is 10 ms. -/
theorem SleepN_sleepy_counterexample :
    ((New.SetSleepy (20 * Millisecond) [10 * Millisecond]).SleepN 1).sleepy = 20 * Millisecond ∧
    min (10 * Millisecond) (20 * Millisecond * 2 ^ 1) = 10 * Millisecond ∧
    ((New.SetSleepy (20 * Millisecond) [10 * Millisecond]).SleepN 1).sleepy ≠
      min (10 * Millisecond) (20 * Millisecond * 2 ^ 1) := by
  refine ⟨?_, ?_, ?_⟩ <;> decide

/-- C5 (amended): for an engine configured with `SetSleepy(init, max)` where
`0 ≤ init ≤ max < 2^62` (nanoseconds), after N consecutive calls of `Sleep` the current
`sleepy` equals `min(max, init · 2^N)`. -/
theorem SleepN_sleepy (j : Job) (init max : Int) (rest : List Int) (N : Nat)
    (h0 : 0 ≤ init) (h1 : init ≤ max) (h2 : max < 2 ^ 62) :
    ((j.SetSleepy init (max :: rest)).SleepN N).sleepy = min max (init * 2 ^ N) :=
  SleepN_backoff_of_range (j.SetSleepy init (max :: rest)) N h0 h1 h2

/-- Witness of C5 (amended): 10 ms and 80 ms, three empty pulls. -/
theorem SleepN_sleepy_witness :
    (0 ≤ 10 * Millisecond ∧ 10 * Millisecond ≤ 80 * Millisecond ∧ 80 * Millisecond < 2 ^ 62) ∧
    ((New.SetSleepy (10 * Millisecond) [80 * Millisecond]).SleepN 3).sleepy =
      min (80 * Millisecond) (10 * Millisecond * 2 ^ 3) :=
  ⟨by decide, SleepN_sleepy New (10 * Millisecond) (80 * Millisecond) [] 3 (by decide)
    (by decide) (by decide)⟩

/-- Evaluation for C6: after `SetSleepy(10ms, 80ms)`, one `Sleep` and one `ResetSleep`,
`sleepy` and `initSleepy` are 10 ms but `maxSleepy` is 10 ms too, not 80 ms, and three further
calls of `Sleep` leave `sleepy` at 10 ms instead of `min(80ms, 10ms · 2^3) = 80ms`. -/
theorem ResetSleep_maxSleepy_eval :
    (((New.SetSleepy (10 * Millisecond) [80 * Millisecond]).SleepN 1).ResetSleep).sleepy =
      10 * Millisecond ∧
    (((New.SetSleepy (10 * Millisecond) [80 * Millisecond]).SleepN 1).ResetSleep).initSleepy =
      10 * Millisecond ∧
    (((New.SetSleepy (10 * Millisecond) [80 * Millisecond]).SleepN 1).ResetSleep).maxSleepy =
      10 * Millisecond ∧
    ((((New.SetSleepy (10 * Millisecond) [80 * Millisecond]).SleepN 1).ResetSleep).SleepN
      3).sleepy = 10 * Millisecond ∧
    min (80 * Millisecond) (10 * Millisecond * 2 ^ 3) = 80 * Millisecond := by
  refine ⟨?_, ?_, ?_, ?_, ?_⟩ <;> decide



/-- The invariant kept by well-configured calls: `0 ≤ initSleepy ≤ sleepy ≤ maxSleepy < 2^62`. -/
theorem applySleepOp_inv (j : Job) (op : SleepOp) (hop : op.wellConfigured = true)
    (h : 0 ≤ j.initSleepy ∧ j.initSleepy ≤ j.sleepy ∧ j.sleepy ≤ j.maxSleepy ∧
      j.maxSleepy < 2 ^ 62) :
    0 ≤ (j.applySleepOp op).initSleepy ∧
    (j.applySleepOp op).initSleepy ≤ (j.applySleepOp op).sleepy ∧
    (j.applySleepOp op).sleepy ≤ (j.applySleepOp op).maxSleepy ∧
    (j.applySleepOp op).maxSleepy < 2 ^ 62 := by
  cases op with
  | setSleepy s args =>
    cases args with
    | nil =>
      simp only [SleepOp.wellConfigured, Bool.and_eq_true, decide_eq_true_eq] at hop
      show 0 ≤ s ∧ s ≤ s ∧ s ≤ s ∧ s < 2 ^ 62
      omega
    | cons a rest =>
      simp only [SleepOp.wellConfigured, Bool.and_eq_true, decide_eq_true_eq] at hop
      show 0 ≤ s ∧ s ≤ s ∧ s ≤ a ∧ a < 2 ^ 62
      omega
  | sleep =>
    show 0 ≤ j.Sleep.initSleepy ∧ j.Sleep.initSleepy ≤ j.Sleep.sleepy ∧
      j.Sleep.sleepy ≤ j.Sleep.maxSleepy ∧ j.Sleep.maxSleepy < 2 ^ 62
    rw [(Sleep_frame j).1, (Sleep_frame j).2,
      Sleep_sleepy_of_range j (by omega) (by omega) (by omega)]
    omega
  | resetSleep =>
    show 0 ≤ j.ResetSleep.initSleepy ∧ j.ResetSleep.initSleepy ≤ j.ResetSleep.sleepy ∧
      j.ResetSleep.sleepy ≤ j.ResetSleep.maxSleepy ∧ j.ResetSleep.maxSleepy < 2 ^ 62
    unfold Job.ResetSleep
    split_ifs
    · show 0 ≤ j.initSleepy ∧ j.initSleepy ≤ j.initSleepy ∧ j.initSleepy ≤ j.initSleepy ∧
        j.initSleepy < 2 ^ 62
      omega
    · exact h

theorem applySleepOps_inv (ops : List SleepOp) (j : Job)
    (hops : ∀ op ∈ ops, op.wellConfigured = true)
    (h : 0 ≤ j.initSleepy ∧ j.initSleepy ≤ j.sleepy ∧ j.sleepy ≤ j.maxSleepy ∧
      j.maxSleepy < 2 ^ 62) :
    0 ≤ (j.applySleepOps ops).initSleepy ∧
    (j.applySleepOps ops).initSleepy ≤ (j.applySleepOps ops).sleepy ∧
    (j.applySleepOps ops).sleepy ≤ (j.applySleepOps ops).maxSleepy ∧
    (j.applySleepOps ops).maxSleepy < 2 ^ 62 := by
  induction ops generalizing j with
  | nil => exact h
  | cons op ops ih =>
    exact ih (j.applySleepOp op) (fun o ho => hops o (List.mem_cons_of_mem _ ho))
      (applySleepOp_inv j op (hops op (List.mem_cons_self _ _)) h)

/-- Counterexample to C7: `SetSleepy(20ms, 10ms)` on a new engine is a reachable state with
`sleepy = 20ms` above `max_sleepy = 10ms`, and it stays so after a `Sleep`. -/
theorem sleepy_bounds_counterexample :
    (New.applySleepOps [SleepOp.setSleepy (20 * Millisecond) [10 * Millisecond]]).sleepy =
      20 * Millisecond ∧
    (New.applySleepOps [SleepOp.setSleepy (20 * Millisecond) [10 * Millisecond]]).maxSleepy =
      10 * Millisecond ∧
    ¬ ((New.applySleepOps [SleepOp.setSleepy (20 * Millisecond) [10 * Millisecond]]).sleepy ≤
      (New.applySleepOps [SleepOp.setSleepy (20 * Millisecond) [10 * Millisecond]]).maxSleepy) ∧
    ¬ ((New.applySleepOps [SleepOp.setSleepy (20 * Millisecond) [10 * Millisecond],
          SleepOp.sleep]).sleepy ≤
      (New.applySleepOps [SleepOp.setSleepy (20 * Millisecond) [10 * Millisecond],
          SleepOp.sleep]).maxSleepy) := by
  refine ⟨?_, ?_, ?_, ?_⟩ <;> decide

/-- C7 (amended): in every engine state reached from `New()` by a sequence of `SetSleepy`,
`Sleep` and `ResetSleep` calls in which every `SetSleepy` has `0 ≤ init ≤ max < 2^62`
(nanoseconds; `max` is `init` when omitted), `init_sleepy ≤ sleepy ≤ max_sleepy` holds. -/
theorem sleepy_bounds (ops : List SleepOp) (hops : ∀ op ∈ ops, op.wellConfigured = true) :
    (New.applySleepOps ops).initSleepy ≤ (New.applySleepOps ops).sleepy ∧
    (New.applySleepOps ops).sleepy ≤ (New.applySleepOps ops).maxSleepy := by
  have h := applySleepOps_inv ops New hops (by decide)
  exact ⟨h.2.1, h.2.2.1⟩

/-- Witness of C7 (amended): configure 10 ms and 80 ms, sleep twice, reset, sleep. -/
theorem sleepy_bounds_witness :
    (New.applySleepOps [SleepOp.setSleepy (10 * Millisecond) [80 * Millisecond], SleepOp.sleep,
        SleepOp.sleep, SleepOp.resetSleep, SleepOp.sleep]).initSleepy ≤
      (New.applySleepOps [SleepOp.setSleepy (10 * Millisecond) [80 * Millisecond], SleepOp.sleep,
        SleepOp.sleep, SleepOp.resetSleep, SleepOp.sleep]).sleepy ∧
    (New.applySleepOps [SleepOp.setSleepy (10 * Millisecond) [80 * Millisecond], SleepOp.sleep,
        SleepOp.sleep, SleepOp.resetSleep, SleepOp.sleep]).sleepy ≤
      (New.applySleepOps [SleepOp.setSleepy (10 * Millisecond) [80 * Millisecond], SleepOp.sleep,
        SleepOp.sleep, SleepOp.resetSleep, SleepOp.sleep]).maxSleepy :=
  sleepy_bounds [SleepOp.setSleepy (10 * Millisecond) [80 * Millisecond], SleepOp.sleep,
    SleepOp.sleep, SleepOp.resetSleep, SleepOp.sleep] (by decide)



/-! ## Registration -/

theorem AddWorkerWithFunc_registered (j : Job) (w w0 : WorkerWithFunc)
    (hreg : mapGet j.workers w.topic = some w0) :
    j.AddWorkerWithFunc w = (j, some Error.ErrTopicRegistered) := by
  unfold Job.AddWorkerWithFunc
  rw [hreg]

theorem NewWorkerWithFunc_topic (NewPool : Int → Except Error Pool) (q : Option Queue)
    (topic : GoString) (f : Option (Task → Ran)) (size : Int) (extra : List Iface)
    (wp : WorkerWithFunc) (h : NewWorkerWithFunc NewPool q topic f size extra = Except.ok wp) :
    wp.topic = topic := by
  unfold NewWorkerWithFunc at h
  cases hv : validate q topic f with
  | some err => rw [hv] at h; cases h
  | none =>
    rw [hv] at h
    cases q with
    | none => cases f <;> cases h
    | some q1 =>
      cases f with
      | none => cases h
      | some f1 =>
        simp only [] at h
        cases hp : NewPool (if size ≤ 0 then defaultConcurrency else size) with
        | error err => rw [hp] at h; cases h
        | ok pool =>
          rw [hp] at h
          cases h
          rfl

theorem NewWorkerWithFunc_valid (NewPool : Int → Except Error Pool) (q1 : Queue)
    (topic : GoString) (f1 : Task → Ran) (size : Int) (extra : List Iface) (pool : Pool)
    (htopic : topic.length ≠ 0)
    (hpool : NewPool (if size ≤ 0 then defaultConcurrency else size) = Except.ok pool) :
    NewWorkerWithFunc NewPool (some q1) topic (some f1) size extra =
      Except.ok { Pool := pool, q := q1, topic := topic, worker := f1, extra := extra,
                  working := true,
                  pipeCap := if size ≤ 0 then defaultConcurrency else size, pipe := [] } := by
  unfold NewWorkerWithFunc validate
  simp only [if_neg htopic]
  rw [hpool]

/-- Counterexample to C8: with topic "t1" registered, `AddFunc` for "t1" with a nil queue
returns the validation error "queue.Queue can not be nil", not `ErrTopicRegistered`. -/
theorem AddFunc_duplicate_counterexample :
    (mapGet (New.AddFunc okPool (some okQueue) (lit "t1") (some (stateHandler 0)) 1 []).1.workers
      (lit "t1")).isSome = true ∧
    ((New.AddFunc okPool (some okQueue) (lit "t1") (some (stateHandler 0)) 1 []).1.AddFunc okPool
      none (lit "t1") (some (stateHandler 0)) 1 []).2 =
        some (Error.other "queue.Queue can not be nil") ∧
    ((New.AddFunc okPool (some okQueue) (lit "t1") (some (stateHandler 0)) 1 []).1.AddFunc okPool
      none (lit "t1") (some (stateHandler 0)) 1 []).2 ≠ some Error.ErrTopicRegistered := by
  refine ⟨rfl, ?_, ?_⟩ <;> decide

/-- C8 (amended): for a topic already in the registry, a further `AddWorkerWithFunc` for
that topic, and a further `AddFunc` for it whose arguments pass validation (queue and
handler not nil, topic not empty) and whose pool is created, return `ErrTopicRegistered`;
every further `AddFunc` for the topic returns an error; and all of them leave the engine, so
the registry and the first registration, unchanged. -/
theorem AddFunc_duplicate (NewPool : Int → Except Error Pool) (j : Job) (topic : GoString)
    (w0 : WorkerWithFunc) (hreg : mapGet j.workers topic = some w0) :
    (∀ w : WorkerWithFunc, w.topic = topic →
      j.AddWorkerWithFunc w = (j, some Error.ErrTopicRegistered)) ∧
    (∀ (q1 : Queue) (f1 : Task → Ran) (size : Int) (args : List Iface) (pool : Pool),
      topic.length ≠ 0 →
      NewPool (if size ≤ 0 then defaultConcurrency else size) = Except.ok pool →
      j.AddFunc NewPool (some q1) topic (some f1) size args =
        (j, some Error.ErrTopicRegistered)) ∧
    (∀ (q : Option Queue) (f : Option (Task → Ran)) (size : Int) (args : List Iface),
      (j.AddFunc NewPool q topic f size args).1 = j ∧
      (j.AddFunc NewPool q topic f size args).2.isSome = true ∧
      mapGet (j.AddFunc NewPool q topic f size args).1.workers topic = some w0) := by
  refine ⟨?_, ?_, ?_⟩
  · intro w hw
    exact AddWorkerWithFunc_registered j w w0 (by rw [hw]; exact hreg)
  · intro q1 f1 size args pool htopic hpool
    unfold Job.AddFunc
    rw [NewWorkerWithFunc_valid NewPool q1 topic f1 size _ pool htopic hpool]
    exact AddWorkerWithFunc_registered j _ w0 hreg
  · intro q f size args
    have key : (j.AddFunc NewPool q topic f size args).1 = j ∧
        (j.AddFunc NewPool q topic f size args).2.isSome = true := by
      unfold Job.AddFunc
      cases hw : NewWorkerWithFunc NewPool q topic f size [Iface.slice args] with
      | error err => exact ⟨rfl, rfl⟩
      | ok wp =>
        have ht := NewWorkerWithFunc_topic NewPool q topic f size _ wp hw
        simp only []
        rw [AddWorkerWithFunc_registered j wp w0 (by rw [ht]; exact hreg)]
        exact ⟨rfl, rfl⟩
    exact ⟨key.1, key.2, by rw [key.1]; exact hreg⟩

/-- Witness of C8 (amended): topic "t1" registered twice through `AddFunc`. -/
theorem AddFunc_duplicate_witness :
    ((New.AddFunc okPool (some okQueue) (lit "t1") (some (stateHandler 0)) 1 []).1.AddFunc okPool
      (some okQueue) (lit "t1") (some (stateHandler 1)) 2 []).2 = some Error.ErrTopicRegistered :=
  congrArg Prod.snd
    ((AddFunc_duplicate okPool (New.AddFunc okPool (some okQueue) (lit "t1") (some (stateHandler 0))
        1 []).1 (lit "t1") _ rfl).2.1 okQueue (stateHandler 1) 2 [] { cap := 2 } (by decide) rfl)

/-! ## Enqueue helpers -/

theorem GetQueueByTopic_unknown (j : Job) (topic : GoString)
    (h : mapGet j.workers topic = none) : j.GetQueueByTopic topic = none := by
  unfold Job.GetQueueByTopic
  rw [h]

/-- C9: for a topic that is not in the registry, each of `Enqueue`, `EnqueueWithTask`,
`EnqueueRaw`, `BatchEnqueue` and `BatchEnqueueWithTask` returns `(false, ErrQueueNotExist)`
and calls no method of any queue backend (its trace of calls is empty). -/
theorem enqueue_unknown_topic (JsonEncode : Task → GoString × Option Error) (id : GoString)
    (ids : Nat → GoString) (j : Job) (topic : GoString) (message : GoString)
    (messages : List GoString) (task : Task) (tasks : List Task) (args : List Iface)
    (h : mapGet j.workers topic = none) :
    j.Enqueue JsonEncode id topic message args =
      { ret := Call.ret (false, some Error.ErrQueueNotExist), trace := [] } ∧
    j.EnqueueWithTask JsonEncode topic task args =
      { ret := Call.ret (false, some Error.ErrQueueNotExist), trace := [] } ∧
    j.EnqueueRaw topic message args =
      { ret := Call.ret (false, some Error.ErrQueueNotExist), trace := [] } ∧
    j.BatchEnqueue JsonEncode ids topic messages args =
      { ret := Call.ret (false, some Error.ErrQueueNotExist), trace := [] } ∧
    j.BatchEnqueueWithTask JsonEncode topic tasks args =
      { ret := Call.ret (false, some Error.ErrQueueNotExist), trace := [] } := by
  have hq := GetQueueByTopic_unknown j topic h
  refine ⟨?_, ?_, ?_, ?_, ?_⟩
  · unfold Job.Enqueue Job.EnqueueWithTask; rw [hq]
  · unfold Job.EnqueueWithTask; rw [hq]
  · unfold Job.EnqueueRaw; rw [hq]
  · unfold Job.BatchEnqueue Job.BatchEnqueueWithTask; rw [hq]
  · unfold Job.BatchEnqueueWithTask; rw [hq]

/-- Witness of C9: an engine with topic "t1" registered, asked to enqueue on "t2". -/
theorem enqueue_unknown_topic_witness :
    mapGet (New.AddFunc okPool (some okQueue) (lit "t1") (some (stateHandler 0)) 1 []).1.workers
      (lit "t2") = none ∧
    ((New.AddFunc okPool (some okQueue) (lit "t1") (some (stateHandler 0)) 1 []).1.EnqueueRaw
      (lit "t2") (lit "m") []).trace = [] :=
  ⟨rfl, congrArg Enqueued.trace
    (enqueue_unknown_topic (fun _ => ([], none)) (lit "id") (fun _ => lit "id")
      (New.AddFunc okPool (some okQueue) (lit "t1") (some (stateHandler 0)) 1 []).1 (lit "t2")
      (lit "m") [lit "m"]
      (sampleTask "m" "") [sampleTask "m" ""] [] rfl).2.2.1⟩

/-! ## UTF-8 and JSON: lemmas -/

theorem toNat_ofNat_byte (n : Nat) : (UInt8.ofNat n).toNat = n % 256 := by
  show (BitVec.ofNat 8 n).toNat = n % 256
  simp

theorem ofNat_toNat_byte (b : UInt8) : UInt8.ofNat b.toNat = b := by
  apply UInt8.ext
  rw [toNat_ofNat_byte]
  exact Nat.mod_eq_of_lt (UInt8.toNat_lt b)

theorem ofNat_eq_of_toNat (n : Nat) (b : UInt8) (h : n = b.toNat) : UInt8.ofNat n = b := by
  rw [h]; exact ofNat_toNat_byte b

theorem isCont_iff (b : UInt8) : isCont b = true ↔ 0x80 ≤ b.toNat ∧ b.toNat ≤ 0xBF := by
  simp [isCont]

theorem acceptRange_bounds (x : Nat) :
    0x80 ≤ (acceptRange x).1 ∧ (acceptRange x).2 ≤ 0xBF ∧
    (x = 0xE0 → (acceptRange x).1 = 0xA0) ∧ (x = 0xED → (acceptRange x).2 = 0x9F) ∧
    (x = 0xF0 → (acceptRange x).1 = 0x90) ∧ (x = 0xF4 → (acceptRange x).2 = 0x8F) := by
  unfold acceptRange
  split_ifs <;> simp_all

/-- A rune decoded without error from a head byte of 0x80 or more is a sequence of two to
four bytes that `encodeRune` gives back, and the decoding only looks at these bytes. -/
theorem decodeRune_multibyte (b : UInt8) (rest : List UInt8) (hb : 0x80 ≤ b.toNat)
    (hok : ¬ ((decodeRune (b :: rest)).1 = RuneError ∧ (decodeRune (b :: rest)).2 = 1)) :
    ∃ chunk tail, b :: rest = (b :: chunk) ++ tail ∧
      (b :: chunk).length = (decodeRune (b :: rest)).2 ∧
      encodeRune (decodeRune (b :: rest)).1 = b :: chunk ∧
      ∀ X, decodeRune ((b :: chunk) ++ X) = decodeRune (b :: rest) := by
  have hlt := UInt8.toNat_lt b
  unfold decodeRune at hok ⊢
  simp only [] at hok ⊢
  by_cases h1 : b.toNat < 0x80
  · omega
  rw [if_neg h1] at hok ⊢
  by_cases h2 : b.toNat < 0xC2
  · rw [if_pos h2] at hok; exact absurd ⟨rfl, rfl⟩ hok
  rw [if_neg h2] at hok ⊢
  by_cases h3 : b.toNat < 0xE0
  · rw [if_pos h3] at hok ⊢
    cases rest with
    | nil => exact absurd ⟨rfl, rfl⟩ hok
    | cons b1 r1 =>
      simp only [] at hok ⊢
      by_cases hc : isCont b1 = true
      · rw [if_pos hc] at hok ⊢
        have hc1 := (isCont_iff b1).1 hc
        refine ⟨[b1], r1, rfl, rfl, ?_, ?_⟩
        · unfold encodeRune
          rw [if_neg (by omega), if_pos (by omega)]
          rw [ofNat_eq_of_toNat _ b (by omega), ofNat_eq_of_toNat _ b1 (by omega)]
        · intro X
          simp only [List.cons_append, List.nil_append]
          rw [if_neg h1, if_neg h2, if_pos h3, if_pos hc]
      · rw [if_neg hc] at hok; exact absurd ⟨rfl, rfl⟩ hok
  rw [if_neg h3] at hok ⊢
  have hacc := acceptRange_bounds b.toNat
  by_cases h4 : b.toNat < 0xF0
  · rw [if_pos h4] at hok ⊢
    rcases rest with _ | ⟨b1, _ | ⟨b2, r2⟩⟩
    · exact absurd ⟨rfl, rfl⟩ hok
    · exact absurd ⟨rfl, rfl⟩ hok
    · simp only [] at hok ⊢
      by_cases hc : (acceptRange b.toNat).1 ≤ b1.toNat ∧ b1.toNat ≤ (acceptRange b.toNat).2 ∧
          isCont b2 = true
      · rw [if_pos hc] at hok ⊢
        have hc2 := (isCont_iff b2).1 hc.2.2
        refine ⟨[b1, b2], r2, rfl, rfl, ?_, ?_⟩
        · unfold encodeRune
          rw [if_neg (by omega), if_neg (by omega), if_neg (by omega), if_pos (by omega)]
          rw [ofNat_eq_of_toNat _ b (by omega), ofNat_eq_of_toNat _ b1 (by omega),
            ofNat_eq_of_toNat _ b2 (by omega)]
        · intro X
          simp only [List.cons_append, List.nil_append]
          rw [if_neg h1, if_neg h2, if_neg h3, if_pos h4, if_pos hc]
      · rw [if_neg hc] at hok; exact absurd ⟨rfl, rfl⟩ hok
  rw [if_neg h4] at hok ⊢
  by_cases h5 : b.toNat < 0xF5
  · rw [if_pos h5] at hok ⊢
    rcases rest with _ | ⟨b1, _ | ⟨b2, _ | ⟨b3, r3⟩⟩⟩
    · exact absurd ⟨rfl, rfl⟩ hok
    · exact absurd ⟨rfl, rfl⟩ hok
    · exact absurd ⟨rfl, rfl⟩ hok
    · simp only [] at hok ⊢
      by_cases hc : (acceptRange b.toNat).1 ≤ b1.toNat ∧ b1.toNat ≤ (acceptRange b.toNat).2 ∧
          isCont b2 = true ∧ isCont b3 = true
      · rw [if_pos hc] at hok ⊢
        have hc2 := (isCont_iff b2).1 hc.2.2.1
        have hc3 := (isCont_iff b3).1 hc.2.2.2
        refine ⟨[b1, b2, b3], r3, rfl, rfl, ?_, ?_⟩
        · unfold encodeRune
          rw [if_neg (by omega), if_neg (by omega), if_neg (by omega), if_neg (by omega)]
          rw [ofNat_eq_of_toNat _ b (by omega), ofNat_eq_of_toNat _ b1 (by omega),
            ofNat_eq_of_toNat _ b2 (by omega), ofNat_eq_of_toNat _ b3 (by omega)]
        · intro X
          simp only [List.cons_append, List.nil_append]
          rw [if_neg h1, if_neg h2, if_neg h3, if_neg h4, if_pos h5, if_pos hc]
      · rw [if_neg hc] at hok; exact absurd ⟨rfl, rfl⟩ hok
  · rw [if_neg h5] at hok; exact absurd ⟨rfl, rfl⟩ hok

theorem byte_of_toNat (b : UInt8) (n : Nat) (h : b.toNat = n) : b = UInt8.ofNat n := by
  rw [← h]; exact (ofNat_toNat_byte b).symm

theorem scanString_quote (m : Nat) (rest : List UInt8) :
    scanString (m + 1) (0x22 :: rest) = some ([], rest) := by
  simp [scanString]

theorem scanString_ascii (m : Nat) (c : UInt8) (rest : List UInt8) (h1 : c.toNat ≠ 0x22)
    (h2 : c.toNat ≠ 0x5C) (h3 : 0x20 ≤ c.toNat) (h4 : c.toNat < 0x80) :
    scanString (m + 1) (c :: rest) = (scanString m rest).map (fun p => (c :: p.1, p.2)) := by
  simp only [scanString]
  rw [if_neg h1, if_neg h2, if_neg (by omega), if_pos h4]

theorem scanString_escape (m : Nat) (e b : UInt8) (rest : List UInt8) (he : e.toNat ≠ 0x75)
    (hu : unescape e = some b) :
    scanString (m + 1) (0x5C :: e :: rest) =
      (scanString m rest).map (fun p => (b :: p.1, p.2)) := by
  simp only [scanString]
  rw [if_neg (by decide), if_pos (by decide), if_neg he, hu]

theorem scanString_u (m : Nat) (a b c d : UInt8) (rest : List UInt8) (rr : Nat)
    (h : getu4 (0x5C :: 0x75 :: a :: b :: c :: d :: rest) = some (rr, rest))
    (hns : ¬ (0xD800 ≤ rr ∧ rr < 0xE000)) :
    scanString (m + 1) (0x5C :: 0x75 :: a :: b :: c :: d :: rest) =
      (scanString m rest).map (fun p => (encodeRune rr ++ p.1, p.2)) := by
  simp only [scanString]
  rw [if_neg (by decide), if_pos (by decide), if_pos (by decide), h]
  simp only []
  rw [if_neg hns]

theorem hexVal_hexDigit (n : Nat) (h : n < 16) : hexVal (hexDigit n) = some n := by
  unfold hexDigit hexVal
  split_ifs with h1 h2 h3 h4 h5 h6 h7 <;>
    simp only [toNat_ofNat_byte] at * <;> first | omega | (congr 1; omega)

theorem getu4_hexDigits (a b c d : Nat) (rest : List UInt8) (ha : a < 16) (hb : b < 16)
    (hc : c < 16) (hd : d < 16) :
    getu4 (0x5C :: 0x75 :: hexDigit a :: hexDigit b :: hexDigit c :: hexDigit d :: rest) =
      some (a * 4096 + b * 256 + c * 16 + d, rest) := by
  unfold getu4
  simp only []
  rw [if_pos (by decide), hexVal_hexDigit a ha, hexVal_hexDigit b hb, hexVal_hexDigit c hc,
    hexVal_hexDigit d hd]

theorem encodeRune_ascii (b : UInt8) (h : b.toNat < 0x80) : encodeRune b.toNat = [b] := by
  unfold encodeRune
  rw [if_pos (by omega), ofNat_toNat_byte]

/-- Reading back the escape of an ASCII byte gives the byte. -/
theorem scanString_escapeByte (m : Nat) (b : UInt8) (X : List UInt8) (h : b.toNat < 0x80) :
    scanString (m + 1) (escapeByte b ++ X) =
      (scanString m X).map (fun p => (b :: p.1, p.2)) := by
  unfold escapeByte
  split_ifs with h1 h2 h3 h4 h5 h6
  · exact scanString_escape m b b X (by omega) (by unfold unescape; rw [if_pos (by omega)])
  · rw [byte_of_toNat b _ h2]
    exact scanString_escape m 0x62 _ X (by decide) (by decide)
  · rw [byte_of_toNat b _ h3]
    exact scanString_escape m 0x66 _ X (by decide) (by decide)
  · rw [byte_of_toNat b _ h4]
    exact scanString_escape m 0x6E _ X (by decide) (by decide)
  · rw [byte_of_toNat b _ h5]
    exact scanString_escape m 0x72 _ X (by decide) (by decide)
  · rw [byte_of_toNat b _ h6]
    exact scanString_escape m 0x74 _ X (by decide) (by decide)
  · have hg := getu4_hexDigits 0 0 (b.toNat / 16) (b.toNat % 16) X (by omega) (by omega)
      (by omega) (by omega)
    have h0 : hexDigit 0 = 0x30 := by decide
    rw [h0] at hg
    have hs := scanString_u m 0x30 0x30 (hexDigit (b.toNat / 16)) (hexDigit (b.toNat % 16)) X _
      hg (by omega)
    have hv : 0 * 4096 + 0 * 256 + b.toNat / 16 * 16 + b.toNat % 16 = b.toNat := by omega
    rw [hv, encodeRune_ascii b h] at hs
    exact hs

theorem scanString_multibyte (m : Nat) (b : UInt8) (chunk X : List UInt8) (d : Nat × Nat)
    (hb : 0x80 ≤ b.toNat) (hdec : decodeRune ((b :: chunk) ++ X) = d)
    (hlen : (b :: chunk).length = d.2) :
    scanString (m + 1) ((b :: chunk) ++ X) =
      (scanString m X).map (fun p => (encodeRune d.1 ++ p.1, p.2)) := by
  have hdrop : ((b :: chunk) ++ X).drop d.2 = X := by
    rw [← hlen]; exact List.drop_left _ _
  rw [List.cons_append] at hdec hdrop ⊢
  simp only [scanString]
  rw [if_neg (by omega), if_neg (by omega), if_neg (by omega), if_neg (by omega), hdec, hdrop]

/-- Reading back the encoded form of a Go string gives the string coerced to valid UTF-8. -/
theorem scanString_appendStringLoop (n : Nat) :
    ∀ s : List UInt8, s.length ≤ n →
      ∀ (m : Nat) (rest : List UInt8), (appendStringLoop n s).length + 1 ≤ m →
        scanString m (appendStringLoop n s ++ 0x22 :: rest) = some (toValidLoop n s, rest) := by
  induction n with
  | zero =>
    intro s hlen m rest hm
    cases s with
    | nil =>
      obtain ⟨m1, rfl⟩ : ∃ m1, m = m1 + 1 := ⟨m - 1, by omega⟩
      simp [appendStringLoop, scanString, toValidLoop]
    | cons b r => simp at hlen
  | succ n ih =>
    intro s hlen m rest hm
    cases s with
    | nil =>
      obtain ⟨m1, rfl⟩ : ∃ m1, m = m1 + 1 := ⟨m - 1, by omega⟩
      simp [appendStringLoop, scanString, toValidLoop]
    | cons b r =>
      obtain ⟨m1, rfl⟩ : ∃ m1, m = m1 + 1 := ⟨m - 1, by omega⟩
      have hlen1 : r.length ≤ n := by simpa using hlen
      simp only [appendStringLoop] at hm ⊢
      simp only [toValidLoop]
      by_cases hascii : b.toNat < 0x80
      · have hd : decodeRune (b :: r) = (b.toNat, 1) := by
          unfold decodeRune; simp only []; rw [if_pos hascii]
        have hne : ¬ ((b.toNat, 1).1 = RuneError ∧ (b.toNat, 1).2 = 1) := by
          unfold RuneError; simp only []; omega
        rw [if_pos hascii] at hm ⊢
        rw [hd, if_neg hne]
        simp only [List.drop_succ_cons, List.drop_zero, List.take_succ_cons, List.take_zero,
          List.singleton_append]
        by_cases hsafe : htmlSafe b.toNat = true
        · rw [if_pos hsafe] at hm ⊢
          have hs : 0x20 ≤ b.toNat ∧ b.toNat ≠ 0x22 ∧ b.toNat ≠ 0x5C := by
            simp [htmlSafe] at hsafe; omega
          rw [List.cons_append, scanString_ascii m1 b _ hs.2.1 hs.2.2 hs.1 hascii,
            ih r hlen1 m1 rest (by simpa using hm)]
          rfl
        · rw [if_neg hsafe] at hm ⊢
          have hel : 1 ≤ (escapeByte b).length := by
            unfold escapeByte; split_ifs <;> simp
          rw [List.append_assoc, scanString_escapeByte m1 b _ hascii,
            ih r hlen1 m1 rest (by rw [List.length_append] at hm; omega)]
          rfl
      · rw [if_neg hascii] at hm ⊢
        by_cases herr : (decodeRune (b :: r)).1 = RuneError ∧ (decodeRune (b :: r)).2 = 1
        · rw [if_pos herr] at hm ⊢
          rw [if_pos herr]
          have hg := getu4_hexDigits 15 15 15 13 (appendStringLoop n r ++ 0x22 :: rest)
            (by omega) (by omega) (by omega) (by omega)
          have hf : hexDigit 15 = 0x66 := by decide
          have hdd : hexDigit 13 = 0x64 := by decide
          rw [hf, hdd] at hg
          have hs := scanString_u m1 0x66 0x66 0x66 0x64 _ _ hg (by omega)
          simp only [List.cons_append, List.nil_append] at hs ⊢
          rw [hs, ih r hlen1 m1 rest (by simp at hm; omega)]
          rfl
        · rw [if_neg herr] at hm ⊢
          rw [if_neg herr]
          obtain ⟨chunk, tail, hsplit, hclen, henc, hX⟩ :=
            decodeRune_multibyte b r (by omega) herr
          have htake : (b :: r).take (decodeRune (b :: r)).2 = b :: chunk := by
            rw [← hclen, hsplit]; exact List.take_left _ _
          have hdrop : (b :: r).drop (decodeRune (b :: r)).2 = tail := by
            rw [← hclen, hsplit]; exact List.drop_left _ _
          rw [hdrop, htake] at hm ⊢
          have htl : tail.length ≤ n := by
            have := congrArg List.length hsplit
            simp at this
            simp at hlen
            omega
          by_cases hsep : (decodeRune (b :: r)).1 = 0x2028 ∨ (decodeRune (b :: r)).1 = 0x2029
          · rw [if_pos hsep] at hm ⊢
            have hg := getu4_hexDigits 2 0 2 ((decodeRune (b :: r)).1 % 16)
              (appendStringLoop n tail ++ 0x22 :: rest) (by omega) (by omega) (by omega)
              (by omega)
            have h0 : hexDigit 0 = 0x30 := by decide
            have h2 : hexDigit 2 = 0x32 := by decide
            rw [h0, h2] at hg
            have hv : 2 * 4096 + 0 * 256 + 2 * 16 + (decodeRune (b :: r)).1 % 16 =
                (decodeRune (b :: r)).1 := by omega
            rw [hv] at hg
            have hs := scanString_u m1 0x32 0x30 0x32 (hexDigit ((decodeRune (b :: r)).1 % 16))
              _ _ hg (by omega)
            simp only [List.cons_append, List.nil_append] at hs ⊢
            rw [hs, ih tail htl m1 rest (by simp at hm; omega), henc]
            rfl
          · rw [if_neg hsep] at hm ⊢
            rw [List.append_assoc,
              scanString_multibyte m1 b chunk _ _ (by omega) (hX _) hclen,
              ih tail htl m1 rest (by simp at hm; omega), henc]
            rfl

/-- Coercion leaves a valid UTF-8 string as it is. -/
theorem toValidLoop_of_valid (n : Nat) :
    ∀ s : List UInt8, s.length ≤ n → validLoop n s = true → toValidLoop n s = s := by
  induction n with
  | zero =>
    intro s hlen _
    cases s with
    | nil => rfl
    | cons b r => simp at hlen
  | succ n ih =>
    intro s hlen hvalid
    cases s with
    | nil => rfl
    | cons b r =>
      simp only [validLoop] at hvalid
      simp only [toValidLoop]
      by_cases herr : (decodeRune (b :: r)).1 = RuneError ∧ (decodeRune (b :: r)).2 = 1
      · rw [if_pos herr] at hvalid; cases hvalid
      · rw [if_neg herr] at hvalid ⊢
        have hpos : 1 ≤ (decodeRune (b :: r)).2 := by
          unfold decodeRune
          simp only []
          split_ifs <;> (try split) <;> (try split_ifs) <;> simp
        rw [ih _ (by rw [List.length_drop]; simp at hlen ⊢; omega) hvalid]
        exact List.take_append_drop _ _

theorem toValidUTF8_of_valid (s : GoString) (h : validUTF8 s = true) : toValidUTF8 s = s :=
  toValidLoop_of_valid s.length s (Nat.le_refl _) h

/-! ### Numbers -/

/-- Whether the byte is a decimal digit. -/
theorem digit_toNat (n : Nat) (h : n < 10) : (UInt8.ofNat (0x30 + n)).toNat = 0x30 + n := by
  rw [toNat_ofNat_byte]; omega

theorem natDigits_all_digits (f : Nat) :
    ∀ n, ∀ c ∈ natDigits f n, 0x30 ≤ c.toNat ∧ c.toNat ≤ 0x39 := by
  induction f with
  | zero => intro n c hc; simp [natDigits] at hc
  | succ f ih =>
    intro n c hc
    simp only [natDigits] at hc
    split_ifs at hc with h
    · simp only [List.mem_singleton] at hc
      rw [hc, digit_toNat n h]; omega
    · rw [List.mem_append] at hc
      rcases hc with hc | hc
      · exact ih _ c hc
      · simp only [List.mem_singleton] at hc
        rw [hc, digit_toNat _ (by omega)]; omega

theorem digitsVal_snoc (xs : List UInt8) (c : UInt8) (hc : 0x30 ≤ c.toNat ∧ c.toNat ≤ 0x39) :
    ∀ acc v, digitsVal acc xs = some v →
      digitsVal acc (xs ++ [c]) = some (v * 10 + (c.toNat - 0x30)) := by
  induction xs with
  | nil =>
    intro acc v h
    simp only [digitsVal, Option.some.injEq] at h
    subst h
    simp only [List.nil_append, digitsVal]
    rw [if_pos hc]
  | cons x xs ih =>
    intro acc v h
    simp only [List.cons_append, digitsVal] at h ⊢
    split_ifs at h ⊢ with hx
    exact ih _ v h

theorem digitsVal_natDigits (f : Nat) : ∀ n, n < f → digitsVal 0 (natDigits f n) = some n := by
  induction f with
  | zero => intro n h; omega
  | succ f ih =>
    intro n h
    simp only [natDigits]
    split_ifs with h10
    · simp only [digitsVal]
      rw [if_pos (by rw [digit_toNat n h10]; omega), digit_toNat n h10]
      congr 1; omega
    · have hrec := ih (n / 10) (by omega)
      rw [digitsVal_snoc _ _ (by rw [digit_toNat _ (by omega)]; omega) 0 _ hrec,
        digit_toNat _ (by omega)]
      congr 1; omega

/-- The digits of a number start with a digit from 1 to 9, or are the single digit 0. -/
theorem natDigits_head (f : Nat) : ∀ n, n < f →
    ∃ d ds, natDigits f n = d :: ds ∧
      ((n = 0 ∧ d.toNat = 0x30 ∧ ds = []) ∨ (0x31 ≤ d.toNat ∧ d.toNat ≤ 0x39)) := by
  induction f with
  | zero => intro n h; omega
  | succ f ih =>
    intro n h
    simp only [natDigits]
    split_ifs with h10
    · refine ⟨_, [], rfl, ?_⟩
      rw [digit_toNat n h10]
      by_cases hz : n = 0
      · exact Or.inl ⟨hz, by omega, rfl⟩
      · exact Or.inr (by omega)
    · obtain ⟨d, ds, hd, hcase⟩ := ih (n / 10) (by omega)
      refine ⟨d, ds ++ [_], by rw [hd]; rfl, ?_⟩
      rcases hcase with ⟨h0, _, _⟩ | h19
      · omega
      · exact Or.inr h19

theorem spanDigits_append (xs : List UInt8) (c : UInt8) (rest : List UInt8)
    (hxs : ∀ x ∈ xs, 0x30 ≤ x.toNat ∧ x.toNat ≤ 0x39)
    (hc : ¬ (0x30 ≤ c.toNat ∧ c.toNat ≤ 0x39)) :
    spanDigits (xs ++ c :: rest) = (xs, c :: rest) := by
  induction xs with
  | nil =>
    simp only [List.nil_append, spanDigits]
    rw [if_neg hc]
  | cons x xs ih =>
    simp only [List.cons_append, spanDigits, List.append_eq]
    rw [if_pos (hxs x (List.mem_cons_self _ _)),
      ih (fun y hy => hxs y (List.mem_cons_of_mem _ hy))]

/-- A digit string as `natDigits` writes it, followed by `,` or `}`, is scanned as one number
literal. -/
theorem scanUnsigned_natDigits (f n : Nat) (hn : n < f) (c : UInt8) (rest : List UInt8)
    (hc : c.toNat = 0x2C ∨ c.toNat = 0x7D) :
    scanUnsigned (natDigits f n ++ c :: rest) = some (natDigits f n, c :: rest) := by
  obtain ⟨d, ds, hd, hcase⟩ := natDigits_head f n hn
  have hall := natDigits_all_digits f n
  rw [hd] at hall ⊢
  have hcnd : ¬ (0x30 ≤ c.toNat ∧ c.toNat ≤ 0x39) := by omega
  have hfrac : scanFrac (c :: rest) = some ([], c :: rest) := by
    unfold scanFrac; simp only []; rw [if_neg (by omega)]
  have hexp : scanExp (c :: rest) = some ([], c :: rest) := by
    unfold scanExp; simp only []; rw [if_neg (by omega)]
  unfold scanUnsigned scanIntPart
  simp only [List.cons_append]
  rcases hcase with ⟨_, h0, hnil⟩ | h19
  · subst hnil
    rw [if_pos h0]
    simp only [List.nil_append, hfrac, hexp, List.append_nil]
  · rw [if_neg (by omega), if_pos h19,
      spanDigits_append ds c rest (fun y hy => hall y (List.mem_cons_of_mem _ hy)) hcnd]
    simp only [hfrac, hexp, List.append_nil]

theorem appendInt_head_not_space (i : Int) (X : List UInt8) :
    ∃ d tl, appendInt i ++ X = d :: tl ∧ (d.toNat = 0x2D ∨ (0x30 ≤ d.toNat ∧ d.toNat ≤ 0x39)) := by
  unfold appendInt
  split_ifs with h
  · exact ⟨0x2D, _, rfl, Or.inl (by decide)⟩
  · obtain ⟨d, ds, hd, _⟩ := natDigits_head (i.natAbs + 1) i.natAbs (by omega)
    have hall := natDigits_all_digits (i.natAbs + 1) i.natAbs d (by rw [hd]; exact List.mem_cons_self _ _)
    exact ⟨d, ds ++ X, by rw [hd]; rfl, Or.inr hall⟩

theorem scanNumber_appendInt (i : Int) (c : UInt8) (rest : List UInt8)
    (hc : c.toNat = 0x2C ∨ c.toNat = 0x7D) :
    scanNumber (appendInt i ++ c :: rest) = some (appendInt i, c :: rest) := by
  unfold appendInt
  split_ifs with h
  · simp only [List.cons_append, scanNumber]
    rw [if_pos (by decide), scanUnsigned_natDigits _ _ (by omega) c rest hc]
    rfl
  · obtain ⟨d, ds, hd, _⟩ := natDigits_head (i.natAbs + 1) i.natAbs (by omega)
    have hall := natDigits_all_digits (i.natAbs + 1) i.natAbs d (by rw [hd]; exact List.mem_cons_self _ _)
    have hs := scanUnsigned_natDigits (i.natAbs + 1) i.natAbs (by omega) c rest hc
    rw [hd] at hs ⊢
    simp only [List.cons_append, scanNumber] at hs ⊢
    rw [if_neg (by omega)]
    exact hs

theorem parseInt64_appendInt (i : Int) (h1 : -(2 ^ 63) ≤ i) (h2 : i < 2 ^ 63) :
    parseInt64 (appendInt i) = some i := by
  unfold appendInt
  split_ifs with h
  · obtain ⟨d, ds, hd, _⟩ := natDigits_head (i.natAbs + 1) i.natAbs (by omega)
    have hv := digitsVal_natDigits (i.natAbs + 1) i.natAbs (by omega)
    rw [hd] at hv ⊢
    simp only [parseInt64]
    rw [if_pos (by decide), hv]
    simp only []
    rw [if_pos (by omega)]
    congr 1
    omega
  · obtain ⟨d, ds, hd, _⟩ := natDigits_head (i.natAbs + 1) i.natAbs (by omega)
    have hall := natDigits_all_digits (i.natAbs + 1) i.natAbs d (by rw [hd]; exact List.mem_cons_self _ _)
    have hv := digitsVal_natDigits (i.natAbs + 1) i.natAbs (by omega)
    rw [hd] at hv ⊢
    simp only [parseInt64]
    rw [if_neg (by omega), hv]
    simp only []
    rw [if_pos (by omega)]
    congr 1
    omega


/-! ### Values and members -/

theorem scanString_appendString (s : GoString) (X : List UInt8) :
    scanString (appendStringLoop s.length s ++ 0x22 :: X).length
      (appendStringLoop s.length s ++ 0x22 :: X) = some (toValidUTF8 s, X) :=
  scanString_appendStringLoop s.length s (Nat.le_refl _) _ X
    (by rw [List.length_append, List.length_cons]; omega)

theorem appendString_append (s : GoString) (X : List UInt8) :
    appendString s ++ X = 0x22 :: (appendStringLoop s.length s ++ 0x22 :: X) := by
  unfold appendString
  simp only [List.cons_append, List.append_assoc, List.nil_append]

theorem skipSpace_cons (c : UInt8) (X : List UInt8)
    (h : ¬ (c.toNat = 0x20 ∨ c.toNat = 0x09 ∨ c.toNat = 0x0D ∨ c.toNat = 0x0A)) :
    skipSpace (c :: X) = c :: X := by
  simp only [skipSpace]; rw [if_neg h]

theorem skipSpace_appendString (s : GoString) (X : List UInt8) :
    skipSpace (appendString s ++ X) = appendString s ++ X := by
  rw [appendString_append]
  exact skipSpace_cons _ _ (by decide)

theorem skipSpace_appendInt (i : Int) (X : List UInt8) :
    skipSpace (appendInt i ++ X) = appendInt i ++ X := by
  obtain ⟨d, tl, h, hd⟩ := appendInt_head_not_space i X
  rw [h]
  exact skipSpace_cons _ _ (by omega)

/-- The JSON string literal written for a Go string is parsed as that string coerced to
valid UTF-8. -/
theorem parseValue_appendString (f : Nat) (s : GoString) (X : List UInt8) :
    parseValue (f + 1) (appendString s ++ X) = some (Json.str (toValidUTF8 s), X) := by
  rw [appendString_append]
  simp only [parseValue]
  rw [if_neg (by decide), if_neg (by decide), if_pos (by decide), scanString_appendString s X]
  rfl

/-- A number written by `appendInt` and followed by `,` or `}` is parsed as that literal. -/
theorem parseValue_appendInt (f : Nat) (i : Int) (c : UInt8) (X : List UInt8)
    (hc : c.toNat = 0x2C ∨ c.toNat = 0x7D) :
    parseValue (f + 1) (appendInt i ++ c :: X) = some (Json.num (appendInt i), c :: X) := by
  obtain ⟨d, tl, h, hd⟩ := appendInt_head_not_space i (c :: X)
  have hs := scanNumber_appendInt i c X hc
  rw [h] at hs ⊢
  simp only [parseValue]
  rw [if_neg (by omega), if_neg (by omega), if_neg (by omega), if_neg (by omega),
    if_neg (by omega), if_neg (by omega), hs]
  rfl

/-- One member of an object: the key, a colon, and a value that `pv` parses up to a `,` or
a `}`. -/
theorem parseMembers_member (pv : List UInt8 → Option (Json × List UInt8)) (fuel : Nat)
    (key : GoString) (V : List UInt8) (v : Json) (c : UInt8) (R : List UInt8)
    (hkey : toValidUTF8 key = key) (hv : pv (skipSpace V) = some (v, c :: R))
    (hc : c.toNat = 0x2C ∨ c.toNat = 0x7D) :
    parseMembers pv (fuel + 1) (appendString key ++ 0x3A :: V) =
      if c.toNat = 0x2C then
        (parseMembers pv fuel (skipSpace R)).map (fun p => ((key, v) :: p.1, p.2))
      else some ([(key, v)], R) := by
  rw [appendString_append]
  simp only [parseMembers]
  rw [if_pos (by decide), scanString_appendString key, hkey]
  simp only []
  rw [skipSpace_cons _ _ (by decide)]
  simp only []
  rw [if_pos (by decide), hv]
  simp only []
  rw [skipSpace_cons _ _ (by omega)]
  simp only []
  by_cases h : c.toNat = 0x2C
  · rw [if_pos h, if_pos h]
  · rw [if_neg h, if_neg h, if_pos (by omega)]

theorem parseValue_object (f : Nat) (key : GoString) (W : List UInt8) :
    parseValue (f + 1) (0x7B :: (appendString key ++ W)) =
      (parseMembers (parseValue f) (appendString key ++ W).length (appendString key ++ W)).map
        (fun p => (Json.obj p.1, p.2)) := by
  rw [appendString_append]
  simp only [parseValue]
  rw [if_pos (by decide), skipSpace_cons _ _ (by decide)]
  simp only []
  rw [if_neg (by decide)]


/-! ### The encoding of a task and its decoding -/

theorem Marshal_eq (t : Task) :
    Marshal t = 0x7B :: (appendString (lit "id") ++ 0x3A :: (appendString t.Id ++ 0x2C ::
      (appendString (lit "topic") ++ 0x3A :: (appendString t.Topic ++ 0x2C ::
      (appendString (lit "message") ++ 0x3A :: (appendString t.Message ++ 0x2C ::
      (appendString (lit "Token") ++ 0x3A :: (appendString t.Token ++ 0x2C ::
      (appendString (lit "DequeueCount") ++ 0x3A :: (appendInt t.DequeueCount ++ 0x2C ::
      (appendString (lit "Result") ++ 0x3A :: (0x7B ::
      (appendString (lit "State") ++ 0x3A :: (appendInt t.Result.State ++ 0x2C ::
      (appendString (lit "Message") ++ 0x3A ::
      (appendString t.Result.Message ++ 0x7D :: [0x7D])))))))))))))))) := by
  have h1 : lit "\x7b\"id\":" = 0x7B :: (appendString (lit "id") ++ [0x3A]) := by decide
  have h2 : lit ",\"topic\":" = 0x2C :: (appendString (lit "topic") ++ [0x3A]) := by decide
  have h3 : lit ",\"message\":" = 0x2C :: (appendString (lit "message") ++ [0x3A]) := by decide
  have h4 : lit ",\"Token\":" = 0x2C :: (appendString (lit "Token") ++ [0x3A]) := by decide
  have h5 : lit ",\"DequeueCount\":" =
      0x2C :: (appendString (lit "DequeueCount") ++ [0x3A]) := by decide
  have h6 : lit ",\"Result\":\x7b\"State\":" =
      0x2C :: (appendString (lit "Result") ++
        0x3A :: 0x7B :: (appendString (lit "State") ++ [0x3A])) := by decide
  have h7 : lit ",\"Message\":" = 0x2C :: (appendString (lit "Message") ++ [0x3A]) := by decide
  have h8 : lit "\x7d\x7d" = [0x7D, 0x7D] := by decide
  unfold Marshal
  rw [h1, h2, h3, h4, h5, h6, h7, h8]
  simp only [List.append_assoc, List.cons_append, List.nil_append]

/-- The JSON value that the encoding of a task parses to. -/
theorem parseJson_Marshal (t : Task) :
    parseJson (Marshal t) = some (Json.obj
      [(lit "id", Json.str (toValidUTF8 t.Id)),
       (lit "topic", Json.str (toValidUTF8 t.Topic)),
       (lit "message", Json.str (toValidUTF8 t.Message)),
       (lit "Token", Json.str (toValidUTF8 t.Token)),
       (lit "DequeueCount", Json.num (appendInt t.DequeueCount)),
       (lit "Result", Json.obj
         [(lit "State", Json.num (appendInt t.Result.State)),
          (lit "Message", Json.str (toValidUTF8 t.Result.Message))])]) := by
  have k1 : toValidUTF8 (lit "id") = lit "id" := by decide
  have k2 : toValidUTF8 (lit "topic") = lit "topic" := by decide
  have k3 : toValidUTF8 (lit "message") = lit "message" := by decide
  have k4 : toValidUTF8 (lit "Token") = lit "Token" := by decide
  have k5 : toValidUTF8 (lit "DequeueCount") = lit "DequeueCount" := by decide
  have k6 : toValidUTF8 (lit "Result") = lit "Result" := by decide
  have k7 : toValidUTF8 (lit "State") = lit "State" := by decide
  have k8 : toValidUTF8 (lit "Message") = lit "Message" := by decide
  unfold parseJson
  rw [Marshal_eq, skipSpace_cons _ _ (by decide)]
  generalize hW8 : appendString t.Result.Message ++ 0x7D :: [0x7D] = W8
  generalize hW7 : appendInt t.Result.State ++ 0x2C ::
      (appendString (lit "Message") ++ 0x3A :: W8) = W7
  generalize hW6 : appendString (lit "State") ++ 0x3A :: W7 = W6
  generalize hW5 : appendInt t.DequeueCount ++ 0x2C ::
      (appendString (lit "Result") ++ 0x3A :: (0x7B :: W6)) = W5
  generalize hW4 : appendString t.Token ++ 0x2C ::
      (appendString (lit "DequeueCount") ++ 0x3A :: W5) = W4
  generalize hW3 : appendString t.Message ++ 0x2C ::
      (appendString (lit "Token") ++ 0x3A :: W4) = W3
  generalize hW2 : appendString t.Topic ++ 0x2C ::
      (appendString (lit "message") ++ 0x3A :: W3) = W2
  generalize hW1 : appendString t.Id ++ 0x2C ::
      (appendString (lit "topic") ++ 0x3A :: W2) = W1
  -- lengths: the nesting depth and the numbers of members are available as fuel
  have l8 : 2 ≤ W8.length := by rw [← hW8]; simp
  have l7 : 2 ≤ W7.length := by rw [← hW7]; simp; omega
  have l6 : 2 ≤ W6.length := by rw [← hW6]; simp; omega
  have l5 : 5 ≤ W5.length := by rw [← hW5]; simp; omega
  have l4 : 5 ≤ W4.length := by rw [← hW4]; simp; omega
  have l3 : 5 ≤ W3.length := by rw [← hW3]; simp; omega
  have l2 : 5 ≤ W2.length := by rw [← hW2]; simp; omega
  have l1 : 5 ≤ W1.length := by rw [← hW1]; simp; omega
  obtain ⟨k, hk⟩ : ∃ k, (0x7B :: (appendString (lit "id") ++ 0x3A :: W1)).length = k + 3 :=
    ⟨(0x7B :: (appendString (lit "id") ++ 0x3A :: W1)).length - 3, by simp; omega⟩
  obtain ⟨j, hj⟩ : ∃ j, (appendString (lit "id") ++ 0x3A :: W1).length = j + 6 :=
    ⟨(appendString (lit "id") ++ 0x3A :: W1).length - 6, by simp; omega⟩
  obtain ⟨i, hi⟩ : ∃ i, W6.length = i + 2 := ⟨W6.length - 2, by omega⟩
  -- the nested object
  have hres : parseValue (k + 2) (skipSpace (0x7B :: W6)) = some (Json.obj
      [(lit "State", Json.num (appendInt t.Result.State)),
       (lit "Message", Json.str (toValidUTF8 t.Result.Message))], 0x7D :: []) := by
    rw [skipSpace_cons _ _ (by decide), ← hW6, parseValue_object (k + 1), hW6, hi, ← hW6,
      parseMembers_member (parseValue (k + 1)) (i + 1) (lit "State") W7
        (Json.num (appendInt t.Result.State)) 0x2C (appendString (lit "Message") ++ 0x3A :: W8)
        k7 (by rw [← hW7, skipSpace_appendInt, parseValue_appendInt k _ _ _ (Or.inl (by decide))])
        (Or.inl (by decide)),
      if_pos (by decide), skipSpace_appendString,
      parseMembers_member (parseValue (k + 1)) i (lit "Message") W8
        (Json.str (toValidUTF8 t.Result.Message)) 0x7D [0x7D] k8
        (by rw [← hW8, skipSpace_appendString, parseValue_appendString k])
        (Or.inr (by decide)),
      if_neg (by decide)]
    rfl
  rw [hk, parseValue_object (k + 2), hj,
    parseMembers_member (parseValue (k + 2)) (j + 5) (lit "id") W1
      (Json.str (toValidUTF8 t.Id)) 0x2C (appendString (lit "topic") ++ 0x3A :: W2) k1
      (by rw [← hW1, skipSpace_appendString, parseValue_appendString (k + 1)])
      (Or.inl (by decide)),
    if_pos (by decide), skipSpace_appendString,
    parseMembers_member (parseValue (k + 2)) (j + 4) (lit "topic") W2
      (Json.str (toValidUTF8 t.Topic)) 0x2C (appendString (lit "message") ++ 0x3A :: W3) k2
      (by rw [← hW2, skipSpace_appendString, parseValue_appendString (k + 1)])
      (Or.inl (by decide)),
    if_pos (by decide), skipSpace_appendString,
    parseMembers_member (parseValue (k + 2)) (j + 3) (lit "message") W3
      (Json.str (toValidUTF8 t.Message)) 0x2C (appendString (lit "Token") ++ 0x3A :: W4) k3
      (by rw [← hW3, skipSpace_appendString, parseValue_appendString (k + 1)])
      (Or.inl (by decide)),
    if_pos (by decide), skipSpace_appendString,
    parseMembers_member (parseValue (k + 2)) (j + 2) (lit "Token") W4
      (Json.str (toValidUTF8 t.Token)) 0x2C (appendString (lit "DequeueCount") ++ 0x3A :: W5) k4
      (by rw [← hW4, skipSpace_appendString, parseValue_appendString (k + 1)])
      (Or.inl (by decide)),
    if_pos (by decide), skipSpace_appendString,
    parseMembers_member (parseValue (k + 2)) (j + 1) (lit "DequeueCount") W5
      (Json.num (appendInt t.DequeueCount)) 0x2C
      (appendString (lit "Result") ++ 0x3A :: (0x7B :: W6)) k5
      (by rw [← hW5, skipSpace_appendInt,
        parseValue_appendInt (k + 1) _ _ _ (Or.inl (by decide))])
      (Or.inl (by decide)),
    if_pos (by decide), skipSpace_appendString,
    parseMembers_member (parseValue (k + 2)) j (lit "Result") (0x7B :: W6) _ 0x7D [] k6 hres
      (Or.inr (by decide)),
    if_neg (by decide)]
  rfl


/-- Decoding the encoding of a task whose integers are in the `int64` range succeeds and
gives the task with its strings coerced to valid UTF-8. -/
theorem Unmarshal_Marshal (t : Task) (hdc1 : -(2 ^ 63) ≤ t.DequeueCount)
    (hdc2 : t.DequeueCount < 2 ^ 63) (hst1 : -(2 ^ 63) ≤ t.Result.State)
    (hst2 : t.Result.State < 2 ^ 63) :
    Unmarshal (Marshal t) zeroTask =
      ({ Id := toValidUTF8 t.Id, Topic := toValidUTF8 t.Topic,
         Message := toValidUTF8 t.Message, Token := toValidUTF8 t.Token,
         DequeueCount := t.DequeueCount,
         Result := { State := t.Result.State, Message := toValidUTF8 t.Result.Message } },
       none) := by
  have f1 : findField taskFields (lit "id") = some TaskField.Id := by decide
  have f2 : findField taskFields (lit "topic") = some TaskField.Topic := by decide
  have f3 : findField taskFields (lit "message") = some TaskField.Message := by decide
  have f4 : findField taskFields (lit "Token") = some TaskField.Token := by decide
  have f5 : findField taskFields (lit "DequeueCount") = some TaskField.DequeueCount := by
    decide
  have f6 : findField taskFields (lit "Result") = some TaskField.Result := by decide
  have f7 : findField resultFields (lit "State") = some ResultField.State := by decide
  have f8 : findField resultFields (lit "Message") = some ResultField.Message := by decide
  unfold Unmarshal
  rw [parseJson_Marshal]
  simp only [decodeTaskMembers, decodeResultMembers, storeString, storeInt, storeResult,
    f1, f2, f3, f4, f5, f6, f7, f8, parseInt64_appendInt _ hdc1 hdc2,
    parseInt64_appendInt _ hst1 hst2, zeroTask]

/-- Counterexample to C10: a task whose message is the single byte 0xFF (not valid UTF-8) is
encoded with the escape of U+FFFD; decoding succeeds but yields the message EF BF BD, not the
message of the task. -/
theorem DecodeStringTask_String_counterexample :
    (DecodeStringTask ({ sampleTask "" "" with Message := [0xFF] } : Task).String).2 = none ∧
    (DecodeStringTask ({ sampleTask "" "" with Message := [0xFF] } : Task).String).1.Message =
      [0xEF, 0xBF, 0xBD] ∧
    (DecodeStringTask ({ sampleTask "" "" with Message := [0xFF] } : Task).String).1.Message ≠
      ({ sampleTask "" "" with Message := [0xFF] } : Task).Message := by
  refine ⟨?_, ?_, ?_⟩ <;> decide

/-- C10 (amended): for every task whose id, topic and message are valid UTF-8 (its dequeue
count and result state being `int64` values), decoding its textual encoding, by
`DecodeStringTask(t.String())` and equally by `DecodeBytesTask(t.Bytes())`, succeeds and
yields a task with the id, topic and message of `t`. -/
theorem DecodeStringTask_String (t : Task) (hid : validUTF8 t.Id = true)
    (htopic : validUTF8 t.Topic = true) (hmsg : validUTF8 t.Message = true)
    (hdc : minInt64 ≤ t.DequeueCount ∧ t.DequeueCount ≤ maxInt64)
    (hst : minInt64 ≤ t.Result.State ∧ t.Result.State ≤ maxInt64) :
    (DecodeStringTask t.String).2 = none ∧
    (DecodeStringTask t.String).1.Id = t.Id ∧
    (DecodeStringTask t.String).1.Topic = t.Topic ∧
    (DecodeStringTask t.String).1.Message = t.Message ∧
    DecodeBytesTask t.Bytes = DecodeStringTask t.String := by
  unfold minInt64 maxInt64 at hdc hst
  have h := Unmarshal_Marshal t hdc.1 (by omega) hst.1 (by omega)
  unfold DecodeStringTask DecodeBytesTask Task.String Task.Bytes
  rw [h]
  exact ⟨rfl, toValidUTF8_of_valid _ hid, toValidUTF8_of_valid _ htopic,
    toValidUTF8_of_valid _ hmsg, rfl⟩

/-- Witness of C10 (amended): a task with the message "héllo <x>&" and a quote in its id. -/
theorem DecodeStringTask_String_witness :
    (DecodeStringTask ({ sampleTask "héllo <x>&" "tok" with Id := lit "a\"b" } : Task).String).2
      = none ∧
    (DecodeStringTask ({ sampleTask "héllo <x>&" "tok" with Id := lit "a\"b" }
      : Task).String).1.Message = lit "héllo <x>&" :=
  ⟨(DecodeStringTask_String ({ sampleTask "héllo <x>&" "tok" with Id := lit "a\"b" } : Task)
      (by decide) (by decide) (by decide) (by decide) (by decide)).1,
   (DecodeStringTask_String ({ sampleTask "héllo <x>&" "tok" with Id := lit "a\"b" } : Task)
      (by decide) (by decide) (by decide) (by decide) (by decide)).2.2.2.1⟩

/-! ## Registration: the new worker -/

theorem mapGet_mapSet_self {β : Type} (m : List (GoString × β)) (k : GoString) (v : β) :
    mapGet (mapSet m k v) k = some v := by
  induction m with
  | nil => simp [mapSet, mapGet]
  | cons kv rest ih =>
    obtain ⟨k1, v1⟩ := kv
    simp only [mapSet]
    by_cases h : k1 = k
    · rw [if_pos h]; simp [mapGet]
    · rw [if_neg h]; simp only [mapGet]; rw [if_neg h]; exact ih

theorem validate_invalid (q : Option Queue) (topic : GoString) (f : Option (Task → Ran))
    (h : q = none ∨ topic = [] ∨ f = none) : (validate q topic f).isSome = true := by
  unfold validate
  cases q with
  | none => rfl
  | some q1 =>
    simp only []
    by_cases ht : topic.length = 0
    · rw [if_pos ht]; rfl
    · rw [if_neg ht]
      cases f with
      | none => rfl
      | some f1 =>
        rcases h with h | h | h
        · cases h
        · exact absurd (by rw [h]; rfl) ht
        · cases h

theorem AddWorkerWithFunc_new (j : Job) (w : WorkerWithFunc)
    (h : mapGet j.workers w.topic = none) :
    j.AddWorkerWithFunc w = ({ j with workers := mapSet j.workers w.topic w }, none) := by
  unfold Job.AddWorkerWithFunc
  rw [h]

/-- C11: `AddFunc` returns an error and leaves the engine, so the registry, unchanged
whenever the queue is nil, the topic is empty or the handler is nil; when the three are
valid, the topic is not registered and the pool is created (a pool of the requested
capacity), it returns no error and the registry then maps the topic to a worker with that
queue and topic, `working = true`, and channel capacity and pool capacity both equal to
`size` when `size > 0` and to 5 when `size ≤ 0`. -/
theorem AddFunc_registers (NewPool : Int → Except Error Pool) (j : Job) (q : Option Queue)
    (topic : GoString) (f : Option (Task → Ran)) (size : Int) (args : List Iface) :
    ((q = none ∨ topic = [] ∨ f = none) →
      (j.AddFunc NewPool q topic f size args).2.isSome = true ∧
      (j.AddFunc NewPool q topic f size args).1 = j) ∧
    (∀ (q1 : Queue) (f1 : Task → Ran), q = some q1 → f = some f1 → topic ≠ [] →
      mapGet j.workers topic = none →
      NewPool (if size ≤ 0 then 5 else size) =
        Except.ok { cap := if size ≤ 0 then 5 else size } →
      (j.AddFunc NewPool q topic f size args).2 = none ∧
      ∃ w, mapGet (j.AddFunc NewPool q topic f size args).1.workers topic = some w ∧
        w.q = q1 ∧ w.topic = topic ∧ w.working = true ∧
        w.pipeCap = w.Pool.cap ∧
        (0 < size → w.pipeCap = size) ∧ (size ≤ 0 → w.pipeCap = 5)) := by
  constructor
  · intro h
    have hv := validate_invalid q topic f h
    unfold Job.AddFunc NewWorkerWithFunc
    cases hval : validate q topic f with
    | none => rw [hval] at hv; cases hv
    | some err => exact ⟨rfl, rfl⟩
  · intro q1 f1 hq hf htopic hreg hpool
    subst hq hf
    have hlen : topic.length ≠ 0 := by
      intro h0; exact htopic (List.length_eq_zero.mp h0)
    have hw := NewWorkerWithFunc_valid NewPool q1 topic f1 size [Iface.slice args] _ hlen hpool
    unfold Job.AddFunc
    rw [hw]
    simp only []
    rw [AddWorkerWithFunc_new j _ hreg]
    refine ⟨rfl, _, mapGet_mapSet_self _ _ _, rfl, rfl, rfl, rfl, ?_, ?_⟩
    · intro h; simp only []; rw [if_neg (by omega)]
    · intro h; simp only []; rw [if_pos h]; rfl

/-- Witness of C11: a first registration of "t1" with size 0, and a registration with a nil
handler. -/
theorem AddFunc_registers_witness :
    (New.AddFunc okPool (some okQueue) (lit "t1") (some (stateHandler 0)) 0 []).2 = none ∧
    (New.AddFunc okPool (some okQueue) (lit "t1") none 3 []).2.isSome = true :=
  ⟨((AddFunc_registers okPool New (some okQueue) (lit "t1") (some (stateHandler 0)) 0 []).2
      okQueue (stateHandler 0) rfl rfl (by decide) rfl rfl).1,
   ((AddFunc_registers okPool New (some okQueue) (lit "t1") none 3 []).1
      (Or.inr (Or.inr rfl))).1⟩

/-! ## WaitStop -/

theorem WaitStop_first (deadlineFirst : Int → Bool) (j : Job) (timeout : Int)
    (h : j.stopOnce = false) :
    j.WaitStop deadlineFirst timeout =
      { job := { j.Sleep with stopOnce := true },
        err := if deadlineFirst (if timeout ≤ 0 then Second * 10 else timeout) then
                 some Error.ErrTimeout
               else none,
        trace := [Event.timeSleep j.Sleep.sleepy],
        timers := [if timeout ≤ 0 then Second * 10 else timeout] } := by
  unfold Job.WaitStop
  rw [if_neg (by rw [h]; decide)]

theorem WaitStop_later (deadlineFirst : Int → Bool) (j : Job) (timeout : Int)
    (h : j.stopOnce = true) :
    j.WaitStop deadlineFirst timeout = { job := j, err := none, trace := [], timers := [] } := by
  unfold Job.WaitStop
  rw [if_pos h]

/-- C12: `WaitStop` is guarded by the once-latch.  The first call waits with a timer of 10 s
when the given timeout is `≤ 0` and of the given timeout otherwise, returns `ErrTimeout`
when that timer fires before the wait group has drained and no error otherwise, and sets
the latch; every later call returns no error, calls no `time.Sleep`, waits on no timer and
leaves the engine as it is, whatever the first call returned and whatever the count of the
wait group. -/
theorem WaitStop_once (deadlineFirst deadlineFirst2 : Int → Bool) (j : Job)
    (timeout timeout2 : Int) (hfirst : j.stopOnce = false) :
    (j.WaitStop deadlineFirst timeout).timers =
      [if timeout ≤ 0 then 10 * Second else timeout] ∧
    ((j.WaitStop deadlineFirst timeout).err = some Error.ErrTimeout ↔
      deadlineFirst (if timeout ≤ 0 then 10 * Second else timeout) = true) ∧
    ((j.WaitStop deadlineFirst timeout).err = none ↔
      deadlineFirst (if timeout ≤ 0 then 10 * Second else timeout) = false) ∧
    (j.WaitStop deadlineFirst timeout).job.stopOnce = true ∧
    ∀ j2 : Job, j2.stopOnce = true →
      (j2.WaitStop deadlineFirst2 timeout2).err = none ∧
      (j2.WaitStop deadlineFirst2 timeout2).trace = [] ∧
      (j2.WaitStop deadlineFirst2 timeout2).timers = [] ∧
      (j2.WaitStop deadlineFirst2 timeout2).job = j2 := by
  have h10 : Second * 10 = 10 * Second := by decide
  rw [WaitStop_first deadlineFirst j timeout hfirst, h10]
  refine ⟨rfl, ?_, ?_, rfl, ?_⟩
  · cases deadlineFirst (if timeout ≤ 0 then 10 * Second else timeout) <;> simp
  · cases deadlineFirst (if timeout ≤ 0 then 10 * Second else timeout) <;> simp
  · intro j2 h2
    rw [WaitStop_later deadlineFirst2 j2 timeout2 h2]
    exact ⟨rfl, rfl, rfl, rfl⟩

/-- Witness of C12: scenario S5, a first call with 100 ms whose timer fires first, then a
second call with 5 s while the wait group still counts one handler. -/
theorem WaitStop_once_witness :
    ({ New with wg := 1 }.WaitStop (fun _ => true) (100 * Millisecond)).err =
      some Error.ErrTimeout ∧
    ((({ New with wg := 1 }.WaitStop (fun _ => true) (100 * Millisecond)).job).WaitStop
      (fun _ => true) (5 * Second)).err = none :=
  ⟨(WaitStop_once (fun _ => true) (fun _ => true) { New with wg := 1 } (100 * Millisecond)
      (5 * Second) rfl).2.1.2 rfl,
   ((WaitStop_once (fun _ => true) (fun _ => true) { New with wg := 1 } (100 * Millisecond)
      (5 * Second) rfl).2.2.2.2
      ({ New with wg := 1 }.WaitStop (fun _ => true) (100 * Millisecond)).job rfl).1⟩

/-! ## The extra parameters and the hand-off -/

/-- Evaluation for C13: after `AddFunc(q, "hts1", f, 5, "instanceId", "groupId")` the worker
stores the two parameters as one element, a slice, and `Dequeue` and `AckMsg` receive a tail
of one element holding that one-element slice; after `NewWorkerWithFunc` with the two
parameters and `AddWorkerWithFunc`, `Dequeue` receives a tail of one element, the slice of
the two.  In neither case is the tail the sequence "instanceId", "groupId". -/
theorem extra_forwarding_eval :
    (∃ w, mapGet (New.AddFunc okPool (some okQueue) (lit "hts1") (some (stateHandler 0)) 5
          sampleExtra).1.workers (lit "hts1") = some w ∧
        w.extra = [Iface.slice sampleExtra] ∧
        (pullCycle w New).trace.head? =
          some (Event.dequeue (lit "hts1") [Iface.slice [Iface.slice sampleExtra]]) ∧
        (processTask w New (sampleTask "a" "tok")).trace.filter Event.isAck =
          [Event.ackMsg (lit "hts1") (lit "tok") [Iface.slice [Iface.slice sampleExtra]]]) ∧
    (∃ w, NewWorkerWithFunc okPool (some okQueue) (lit "hts1") (some (stateHandler 0)) 5
          sampleExtra = Except.ok w ∧
        w.extra = sampleExtra ∧
        (pullCycle w New).trace.head? =
          some (Event.dequeue (lit "hts1") [Iface.slice sampleExtra])) ∧
    [Iface.slice [Iface.slice sampleExtra]] ≠ sampleExtra ∧
    [Iface.slice sampleExtra] ≠ sampleExtra := by
  refine ⟨⟨_, rfl, rfl, rfl, rfl⟩, ⟨_, rfl, rfl, rfl⟩, ?_, ?_⟩
  · intro h; cases h
  · intro h; cases h

/-- The waiting loop returns without pushing only in a round that reads both flags as
true. -/
theorem waitLoop_exited (rounds : List Round) :
    ∀ k n, waitLoop rounds k = HandOff.exited n →
      ∃ r ∈ rounds, r.running = true ∧ r.working = true := by
  induction rounds with
  | nil => intro k n h; simp [waitLoop] at h
  | cons r rs ih =>
    intro k n h
    simp only [waitLoop] at h
    by_cases hf : (r.running && r.working) = true
    · simp only [Bool.and_eq_true] at hf
      exact ⟨r, List.mem_cons_self _ _, hf.1, hf.2⟩
    · rw [if_neg hf] at h
      by_cases hs : r.sent = true
      · rw [if_pos hs] at h; cases h
      · rw [if_neg hs] at h
        obtain ⟨r1, hr1, h1⟩ := ih _ _ h
        exact ⟨r1, List.mem_cons_of_mem _ hr1, h1⟩

/-- Evaluation for C14: with the engine started and the worker working, a full channel makes
the producer return at once, dropping the task, although the send would have succeeded
within the round; with the engine stopped the producer stays in the loop, round after round,
until the send succeeds. -/
theorem handOff_eval :
    New.Start.running = true ∧ fullWorker.working = true ∧
    handOff fullWorker
      [{ running := New.Start.running, working := fullWorker.working, sent := true }] =
        HandOff.exited 0 ∧
    handOff fullWorker
      [{ running := New.Start.Stop.running, working := fullWorker.working, sent := false },
       { running := New.Start.Stop.running, working := fullWorker.working, sent := false },
       { running := New.Start.Stop.running, working := fullWorker.working, sent := true }] =
        HandOff.pushed 3 := by
  refine ⟨rfl, rfl, ?_, ?_⟩ <;> decide

/-! ## The counters of the producer -/

theorem wrapInt64_succ (a : Int) : addInt64 (wrapInt64 a) 1 = wrapInt64 (a + 1) := by
  unfold addInt64 wrapInt64
  omega

theorem Sleep_pullCounters (j : Job) : j.Sleep.pullCounters = j.pullCounters := by
  unfold Job.Sleep
  split_ifs <;> rfl

theorem ResetSleep_pullCounters (j : Job) : j.ResetSleep.pullCounters = j.pullCounters := by
  unfold Job.ResetSleep Job.SetSleepy
  split_ifs <;> rfl

theorem isRealError_iff (err : Option Error) :
    isRealError err = true ↔ ∃ e, err = some e ∧ e ≠ Error.ErrNil := by
  cases err with
  | none => simp [isRealError]
  | some e => simp [isRealError]

theorem pullDecode_pullCounters (j : Job) (message token : GoString) (dequeueCount : Int) :
    (pullDecode j message token dequeueCount).job.pullCounters =
      (j.pullCount, j.pullErrCount, j.pullEmptyCount, j.taskCount,
        if (DecodeStringTask message).2.isSome then addInt64 j.taskErrCount 1
        else j.taskErrCount) := by
  unfold pullDecode
  cases h : (DecodeStringTask message).2 with
  | none =>
    simp only []
    rw [ResetSleep_pullCounters]
    rfl
  | some err =>
    simp only []
    rw [Sleep_pullCounters]
    rfl

/-- The counters after the part of an iteration that follows the return of `Dequeue`. -/
theorem pullReturned_pullCounters (j : Job) (message token : GoString) (dequeueCount : Int)
    (err : Option Error) :
    (pullReturned j message token dequeueCount err).job.pullCounters =
      if isRealError err = true then
        (j.pullCount, addInt64 j.pullErrCount 1, j.pullEmptyCount, j.taskCount, j.taskErrCount)
      else if err = some Error.ErrNil ∨ message = [] then
        (j.pullCount, j.pullErrCount, addInt64 j.pullEmptyCount 1, j.taskCount, j.taskErrCount)
      else
        (j.pullCount, j.pullErrCount, j.pullEmptyCount, addInt64 j.taskCount 1,
          if (DecodeStringTask message).2.isSome then addInt64 j.taskErrCount 1
          else j.taskErrCount) := by
  unfold pullReturned
  by_cases h1 : isRealError err = true
  · rw [if_pos h1, if_pos h1, Sleep_pullCounters]; rfl
  · rw [if_neg h1, if_neg h1]
    by_cases h2 : err = some Error.ErrNil ∨ message = []
    · rw [if_pos h2, if_pos h2, Sleep_pullCounters]; rfl
    · rw [if_neg h2, if_neg h2, pullDecode_pullCounters]

theorem pullCycle_pullCounters (w : WorkerWithFunc) (j : Job) (message token : GoString)
    (dequeueCount : Int) (err : Option Error)
    (h : w.q.Dequeue w.topic [Iface.slice w.extra] =
      Call.ret (message, token, dequeueCount, err)) :
    (pullCycle w j).pull.isCrashed = false ∧
    (pullCycle w j).job.pullCounters =
      if isRealError err = true then
        (addInt64 j.pullCount 1, addInt64 j.pullErrCount 1, j.pullEmptyCount, j.taskCount,
          j.taskErrCount)
      else if err = some Error.ErrNil ∨ message = [] then
        (addInt64 j.pullCount 1, j.pullErrCount, addInt64 j.pullEmptyCount 1, j.taskCount,
          j.taskErrCount)
      else
        (addInt64 j.pullCount 1, j.pullErrCount, j.pullEmptyCount, addInt64 j.taskCount 1,
          if (DecodeStringTask message).2.isSome then addInt64 j.taskErrCount 1
          else j.taskErrCount) := by
  unfold pullCycle
  rw [h]
  simp only []
  constructor
  · unfold pullReturned pullDecode
    split_ifs <;> (try split) <;> rfl
  · rw [pullReturned_pullCounters]

theorem pullCycle_crashed (w : WorkerWithFunc) (j : Job) (e : Iface)
    (h : w.q.Dequeue w.topic [Iface.slice w.extra] = Call.panicked e) :
    (pullCycle w j).pull.isCrashed = true := by
  unfold pullCycle
  rw [h]
  rfl

/-- The counters after a run of iterations are the 64-bit images of counts of iterations:
the iterations with a real error, the empty ones, those with a message, and among these the
ones whose message did not decode. -/
theorem pullCycles_counts (ws : List WorkerWithFunc) :
    ∀ (j : Job) (k e m t d : Nat), e + m + t ≤ k → d ≤ t →
      j.pullCounters = (wrapInt64 ((e + m + t : Nat) : Int), wrapInt64 (e : Int),
        wrapInt64 (m : Int), wrapInt64 (t : Int), wrapInt64 (d : Int)) →
      ∃ e1 m1 t1 d1 : Nat, e1 + m1 + t1 ≤ k + ws.length ∧ d1 ≤ t1 ∧
        (pullCycles j ws).pullCounters =
          (wrapInt64 ((e1 + m1 + t1 : Nat) : Int), wrapInt64 (e1 : Int), wrapInt64 (m1 : Int),
            wrapInt64 (t1 : Int), wrapInt64 (d1 : Int)) := by
  induction ws with
  | nil =>
    intro j k e m t d h1 h2 hj
    exact ⟨e, m, t, d, by simpa using h1, h2, hj⟩
  | cons w ws ih =>
    intro j k e m t d h1 h2 hj
    simp only [pullCycles, List.length_cons]
    cases hd : w.q.Dequeue w.topic [Iface.slice w.extra] with
    | panicked x =>
      rw [if_pos (pullCycle_crashed w j x hd)]
      exact ⟨e, m, t, d, by omega, h2, hj⟩
    | ret a =>
      obtain ⟨message, token, dequeueCount, err⟩ := a
      have hc := pullCycle_pullCounters w j message token dequeueCount err hd
      rw [if_neg (by rw [hc.1]; decide)]
      have hfields : j.pullCount = wrapInt64 ((e + m + t : Nat) : Int) ∧
          j.pullErrCount = wrapInt64 (e : Int) ∧ j.pullEmptyCount = wrapInt64 (m : Int) ∧
          j.taskCount = wrapInt64 (t : Int) ∧ j.taskErrCount = wrapInt64 (d : Int) := by
        unfold Job.pullCounters at hj
        simp only [Prod.mk.injEq] at hj
        exact hj
      obtain ⟨f1, f2, f3, f4, f5⟩ := hfields
      have hnext := hc.2
      rw [f1, f2, f3, f4, f5, wrapInt64_succ, wrapInt64_succ, wrapInt64_succ, wrapInt64_succ,
        wrapInt64_succ] at hnext
      by_cases c1 : isRealError err = true
      · rw [if_pos c1] at hnext
        obtain ⟨e1, m1, t1, d1, g1, g2, g3⟩ := ih (pullCycle w j).job (k + 1) (e + 1) m t d
          (by omega) h2 (by rw [hnext]; push_cast; congr 2; ring)
        exact ⟨e1, m1, t1, d1, by omega, g2, g3⟩
      · rw [if_neg c1] at hnext
        by_cases c2 : err = some Error.ErrNil ∨ message = []
        · rw [if_pos c2] at hnext
          obtain ⟨e1, m1, t1, d1, g1, g2, g3⟩ := ih (pullCycle w j).job (k + 1) e (m + 1) t d
            (by omega) h2 (by rw [hnext]; push_cast; congr 2; ring)
          exact ⟨e1, m1, t1, d1, by omega, g2, g3⟩
        · rw [if_neg c2] at hnext
          by_cases c3 : (DecodeStringTask message).2.isSome = true
          · rw [if_pos c3] at hnext
            obtain ⟨e1, m1, t1, d1, g1, g2, g3⟩ :=
              ih (pullCycle w j).job (k + 1) e m (t + 1) (d + 1)
                (by omega) (by omega) (by rw [hnext]; push_cast; congr 2)
            exact ⟨e1, m1, t1, d1, by omega, g2, g3⟩
          · rw [if_neg c3] at hnext
            obtain ⟨e1, m1, t1, d1, g1, g2, g3⟩ :=
              ih (pullCycle w j).job (k + 1) e m (t + 1) d
                (by omega) (by omega) (by rw [hnext]; push_cast; congr 2)
            exact ⟨e1, m1, t1, d1, by omega, g2, g3⟩

/-- C15: an iteration of the producer loop in which `Dequeue` returns increases `pull` by
exactly 1 (64-bit atomic add) and exactly one of `pull_err` (an error other than the empty
sentinel), `pull_empty` (no such error, and the empty sentinel or an empty message) and
`task` (otherwise), leaving the other two as they are, and it increases `task_err` exactly
when it increased `task` and the message did not decode.  Hence after any run of iterations
on a new engine the counters are the 64-bit images of counts with
`pull = pull_err + pull_empty + task` and `task_err ≤ task`, and these two relations hold
of the counters themselves as long as no counter has wrapped (fewer than 2^63 iterations). -/
theorem pullCycle_counters (w : WorkerWithFunc) (j : Job) :
    (∀ (message token : GoString) (dequeueCount : Int) (err : Option Error),
      w.q.Dequeue w.topic [Iface.slice w.extra] =
        Call.ret (message, token, dequeueCount, err) →
      (pullCycle w j).job.pullCount = addInt64 j.pullCount 1 ∧
      ((∃ e, err = some e ∧ e ≠ Error.ErrNil) →
        (pullCycle w j).job.pullErrCount = addInt64 j.pullErrCount 1 ∧
        (pullCycle w j).job.pullEmptyCount = j.pullEmptyCount ∧
        (pullCycle w j).job.taskCount = j.taskCount ∧
        (pullCycle w j).job.taskErrCount = j.taskErrCount) ∧
      (¬ (∃ e, err = some e ∧ e ≠ Error.ErrNil) → (err = some Error.ErrNil ∨ message = []) →
        (pullCycle w j).job.pullErrCount = j.pullErrCount ∧
        (pullCycle w j).job.pullEmptyCount = addInt64 j.pullEmptyCount 1 ∧
        (pullCycle w j).job.taskCount = j.taskCount ∧
        (pullCycle w j).job.taskErrCount = j.taskErrCount) ∧
      (¬ (∃ e, err = some e ∧ e ≠ Error.ErrNil) → ¬ (err = some Error.ErrNil ∨ message = []) →
        (pullCycle w j).job.pullErrCount = j.pullErrCount ∧
        (pullCycle w j).job.pullEmptyCount = j.pullEmptyCount ∧
        (pullCycle w j).job.taskCount = addInt64 j.taskCount 1 ∧
        ((DecodeStringTask message).2 ≠ none →
          (pullCycle w j).job.taskErrCount = addInt64 j.taskErrCount 1) ∧
        ((DecodeStringTask message).2 = none →
          (pullCycle w j).job.taskErrCount = j.taskErrCount))) ∧
    (∀ ws : List WorkerWithFunc, ∃ e m t d : Nat, e + m + t ≤ ws.length ∧ d ≤ t ∧
      (pullCycles New ws).pullCounters =
        (wrapInt64 ((e + m + t : Nat) : Int), wrapInt64 (e : Int), wrapInt64 (m : Int),
          wrapInt64 (t : Int), wrapInt64 (d : Int)) ∧
      ((ws.length : Int) < 2 ^ 63 →
        (pullCycles New ws).pullCount =
          (pullCycles New ws).pullErrCount + (pullCycles New ws).pullEmptyCount +
            (pullCycles New ws).taskCount ∧
        (pullCycles New ws).taskErrCount ≤ (pullCycles New ws).taskCount)) := by
  constructor
  · intro message token dequeueCount err hd
    have hc := (pullCycle_pullCounters w j message token dequeueCount err hd).2
    unfold Job.pullCounters at hc
    have hreal := isRealError_iff err
    by_cases c1 : isRealError err = true
    · rw [if_pos c1] at hc
      simp only [Prod.mk.injEq] at hc
      exact ⟨hc.1, fun _ => hc.2, fun hn => absurd (hreal.1 c1) hn,
        fun hn => absurd (hreal.1 c1) hn⟩
    · rw [if_neg c1] at hc
      by_cases c2 : err = some Error.ErrNil ∨ message = []
      · rw [if_pos c2] at hc
        simp only [Prod.mk.injEq] at hc
        exact ⟨hc.1, fun hr => absurd (hreal.2 hr) c1, fun _ _ => hc.2,
          fun _ hn => absurd c2 hn⟩
      · rw [if_neg c2] at hc
        simp only [Prod.mk.injEq] at hc
        refine ⟨hc.1, fun hr => absurd (hreal.2 hr) c1, fun _ h2 => absurd h2 c2,
          fun _ _ => ⟨hc.2.1, hc.2.2.1, hc.2.2.2.1, ?_, ?_⟩⟩
        · intro hne
          rw [hc.2.2.2.2, if_pos (Option.isSome_iff_ne_none.2 hne)]
        · intro heq
          rw [hc.2.2.2.2, if_neg (by rw [heq]; decide)]
  · intro ws
    obtain ⟨e, m, t, d, h1, h2, h3⟩ := pullCycles_counts ws New 0 0 0 0 0 (by omega)
      (by omega) (by decide)
    refine ⟨e, m, t, d, by omega, h2, h3, ?_⟩
    intro hlen
    unfold Job.pullCounters at h3
    simp only [Prod.mk.injEq] at h3
    obtain ⟨f1, f2, f3, f4, f5⟩ := h3
    rw [f1, f2, f3, f4, f5, wrapInt64_of_range _ (by omega) (by omega),
      wrapInt64_of_range _ (by omega) (by omega), wrapInt64_of_range _ (by omega) (by omega),
      wrapInt64_of_range _ (by omega) (by omega), wrapInt64_of_range _ (by omega) (by omega)]
    constructor
    · push_cast; ring
    · exact_mod_cast h2

/-- Witness of C15: one iteration on a message that is not JSON raises `pull`, `task` and
`task_err` from 0 to 1; three iterations, one empty, one failing to decode and one with a
task, leave `pull = 3`, `pull_empty = 1`, `task = 2`, `task_err = 1`. -/
theorem pullCycle_counters_witness :
    (pullCycle (dequeueWorker (Call.ret (lit "x", lit "tok", 1, none))) New).job.taskErrCount
      = addInt64 New.taskErrCount 1 ∧
    (pullCycles New [dequeueWorker (Call.ret ([], [], 0, none)),
      dequeueWorker (Call.ret (lit "x", lit "tok", 1, none)),
      dequeueWorker (Call.ret ((sampleTask "m" "").String, lit "tok", 1, none))]).pullCounters
      = (3, 0, 1, 2, 1) :=
  ⟨((pullCycle_counters (dequeueWorker (Call.ret (lit "x", lit "tok", 1, none))) New).1
      (lit "x") (lit "tok") 1 none rfl).2.2.2 (by simp) (by decide) |>.2.2.2.1 (by decide),
   by decide⟩

/-! ## The producer: the task handed over -/

theorem decodeTaskMembers_untouched (members : List (GoString × Json)) :
    ∀ acc : Task × Option Error,
      (∀ m ∈ members, findField taskFields m.1 ≠ some TaskField.Topic ∧
        findField taskFields m.1 ≠ some TaskField.Token) →
      (decodeTaskMembers members acc).1.Topic = acc.1.Topic ∧
      (decodeTaskMembers members acc).1.Token = acc.1.Token := by
  induction members with
  | nil => intro acc _; exact ⟨rfl, rfl⟩
  | cons m rest ih =>
    intro acc h
    obtain ⟨key, v⟩ := m
    obtain ⟨t, err⟩ := acc
    have hm := h (key, v) (List.mem_cons_self _ _)
    have hrest : ∀ m ∈ rest, findField taskFields m.1 ≠ some TaskField.Topic ∧
        findField taskFields m.1 ≠ some TaskField.Token :=
      fun m hmem => h m (List.mem_cons_of_mem _ hmem)
    simp only [decodeTaskMembers]
    cases hf : findField taskFields key with
    | none => exact ih _ hrest
    | some fld =>
      cases fld with
      | Topic => exact absurd hf hm.1
      | Token => exact absurd hf hm.2
      | Id => exact ih _ hrest
      | Message => exact ih _ hrest
      | DequeueCount => exact ih _ hrest
      | Result => exact ih _ hrest

theorem DecodeStringTask_raw (message : GoString) (members : List (GoString × Json))
    (hobj : parseJson message = some (Json.obj members))
    (hraw : ∀ m ∈ members, findField taskFields m.1 ≠ some TaskField.Topic ∧
      findField taskFields m.1 ≠ some TaskField.Token) :
    (DecodeStringTask message).1.Topic = [] ∧ (DecodeStringTask message).1.Token = [] := by
  unfold DecodeStringTask DecodeBytesTask Unmarshal
  rw [hobj]
  exact decodeTaskMembers_untouched members (zeroTask, none) hraw

theorem processTask_countP_isAck_of_token (w : WorkerWithFunc) (j : Job) (task : Task)
    (h : ∀ r, handlerRun w j task = some r → r.panic = none → r.task.Token = []) :
    (processTask w j task).trace.countP Event.isAck = 0 := by
  cases hrun : handlerRun w j task with
  | none =>
    have hrun2 : handlerRun w { j with wg := j.wg + 1 } task = none := by
      rw [handlerRun_wg]; exact hrun
    unfold processTask
    rw [processTaskDeferred_countP_isAck]
    unfold handlerRun at hrun2
    unfold processTaskBody
    cases hp : (runBefore { j with wg := j.wg + 1 } task).panic with
    | some e => exact runBefore_trace_countP Event.isAck _ task rfl
    | none => rw [hp] at hrun2; cases hrun2
  | some r =>
    cases hp : r.panic with
    | none =>
      rw [processTask_countP_isAck_of_ret w j task r hrun hp, if_neg]
      intro hh
      exact hh.2 (h r hrun hp)
    | some e =>
      have hb := runBefore_trace_countP Event.isAck { j with wg := j.wg + 1 } task rfl
      unfold processTask
      rw [processTaskDeferred_countP_isAck,
        processTaskBody_of_panic w _ task r e (by rw [handlerRun_wg]; exact hrun) hp]
      simp [List.countP_append, hb, Event.isAck]

theorem pullCycle_task (w : WorkerWithFunc) (j : Job) (message token : GoString)
    (dequeueCount : Int)
    (hd : w.q.Dequeue w.topic [Iface.slice w.extra] =
      Call.ret (message, token, dequeueCount, none))
    (hne : message ≠ []) (hdec : (DecodeStringTask message).2 = none) :
    (pullCycle w j).pull = Pull.task
      { (if (DecodeStringTask message).1.Topic != [] then
            { (DecodeStringTask message).1 with Token := token }
          else (DecodeStringTask message).1) with DequeueCount := dequeueCount } := by
  unfold pullCycle
  rw [hd]
  simp only []
  unfold pullReturned
  rw [if_neg (by simp [isRealError]), if_neg (by simp [hne])]
  unfold pullDecode
  rw [hdec]

/-- Counterexample to C16 as stated: the backend delivers the raw message, a JSON object
whose one member "message" selects neither the field topic nor the field Token, with the
delivery token "tok".  The task handed over has an empty token, but the handler receives the
task by pointer: `tokenHandler` writes the token "mine" and stores Succeed, and `processTask`
then makes one `AckMsg` call, with that token. -/
theorem pullCycle_token_counterexample :
    parseJson rawMessage = some (Json.obj [(lit "message", Json.str (lit "hi"))]) ∧
    (findField taskFields (lit "message") ≠ some TaskField.Topic ∧
      findField taskFields (lit "message") ≠ some TaskField.Token) ∧
    ∃ t, (pullCycle (tokenWorker (Call.ret (rawMessage, lit "tok", 3, none))) New).pull =
        Pull.task t ∧
      t.Topic = [] ∧ t.Token = [] ∧
      (processTask (tokenWorker (Call.ret (rawMessage, lit "tok", 3, none))) New t).trace.filter
        Event.isAck = [Event.ackMsg (lit "t1") (lit "mine") [Iface.slice []]] ∧
      (processTask (tokenWorker (Call.ret (rawMessage, lit "tok", 3, none))) New t).trace.countP
        Event.isAck = 1 :=
  ⟨rfl, by decide, _, rfl, rfl, rfl, rfl, rfl⟩

/-- C16 (amended): when `Dequeue` returns a non-empty message without error and the message
decodes, the task that the producer hands over has the dequeue count returned by the backend
and the decoded id, topic, message and result; its token is the delivery token of the
backend when the decoded topic is not empty, and the token decoded from the message when the
decoded topic is empty.  So for a raw message, a JSON object with no member that selects the
field topic or Token, the task handed over has an empty token, and `processTask` on it makes
no `AckMsg` call, whatever state the handler stores (and also when the handler panics or is
not reached), provided that the before callback and the handler leave the token as it was
handed over. -/
theorem pullCycle_token (w : WorkerWithFunc) (j : Job) (message token : GoString)
    (dequeueCount : Int)
    (hd : w.q.Dequeue w.topic [Iface.slice w.extra] =
      Call.ret (message, token, dequeueCount, none))
    (hne : message ≠ []) (hdec : (DecodeStringTask message).2 = none) :
    ∃ t, (pullCycle w j).pull = Pull.task t ∧
      t.DequeueCount = dequeueCount ∧
      ((DecodeStringTask message).1.Topic ≠ [] → t.Token = token) ∧
      ((DecodeStringTask message).1.Topic = [] →
        t.Token = (DecodeStringTask message).1.Token) ∧
      t.Id = (DecodeStringTask message).1.Id ∧
      t.Topic = (DecodeStringTask message).1.Topic ∧
      t.Message = (DecodeStringTask message).1.Message ∧
      t.Result = (DecodeStringTask message).1.Result ∧
      (∀ members, parseJson message = some (Json.obj members) →
        (∀ m ∈ members, findField taskFields m.1 ≠ some TaskField.Topic ∧
          findField taskFields m.1 ≠ some TaskField.Token) →
        t.Token = [] ∧
        ∀ j2 : Job,
          (∀ r, handlerRun w j2 t = some r → r.panic = none → r.task.Token = t.Token) →
          (processTask w j2 t).trace.countP Event.isAck = 0) := by
  refine ⟨_, pullCycle_task w j message token dequeueCount hd hne hdec, rfl, ?_, ?_, ?_, ?_,
    ?_, ?_, ?_⟩
  · intro h
    rw [if_pos (by simpa using h)]
  · intro h
    rw [if_neg (by simp [h])]
  · split <;> rfl
  · split <;> rfl
  · split <;> rfl
  · split <;> rfl
  · intro members hobj hraw
    have hr := DecodeStringTask_raw message members hobj hraw
    have htok : ({ (if (DecodeStringTask message).1.Topic != [] then
            { (DecodeStringTask message).1 with Token := token }
          else (DecodeStringTask message).1) with DequeueCount := dequeueCount } : Task).Token
        = [] := by
      rw [if_neg (by simp [hr.1])]
      exact hr.2
    refine ⟨htok, ?_⟩
    intro j2 hkeep
    apply processTask_countP_isAck_of_token
    intro r hrun hret
    rw [hkeep r hrun hret]
    exact htok

/-- Witness of C16 (amended): the backend delivers the raw message with token "tok" and count 3; the
task handed over has count 3 and no token, and a handler storing Succeed is followed by no
`AckMsg` call. -/
theorem pullCycle_token_witness :
    ∃ t, (pullCycle (dequeueWorker (Call.ret (rawMessage, lit "tok", 3, none))) New).pull =
        Pull.task t ∧ t.DequeueCount = 3 ∧ t.Token = [] ∧ t.Message = lit "hi" ∧
      (processTask (dequeueWorker (Call.ret (rawMessage, lit "tok", 3, none))) New t).trace.countP
        Event.isAck = 0 := by
  obtain ⟨t, h1, h2, _, h4, _, _, h7, _, h9⟩ :=
    pullCycle_token (dequeueWorker (Call.ret (rawMessage, lit "tok", 3, none))) New rawMessage
      (lit "tok") 3 rfl (by decide) (by decide)
  have hraw := h9 [(lit "message", Json.str (lit "hi"))] rfl (by decide)
  refine ⟨t, h1, h2, hraw.1, ?_, ?_⟩
  · rw [h7]; decide
  · apply hraw.2 New
    intro r hrun _
    have : r = stateHandler 0 t := by
      have h0 : handlerRun (dequeueWorker (Call.ret (rawMessage, lit "tok", 3, none))) New t
          = some (stateHandler 0 t) := rfl
      rw [h0] at hrun
      exact (Option.some.inj hrun).symm
    rw [this]
    rfl

/-! ## Enqueue helpers on a registered topic -/

theorem GetQueueByTopic_registered (j : Job) (topic : GoString) (w : WorkerWithFunc)
    (h : mapGet j.workers topic = some w) : j.GetQueueByTopic topic = some w.q := by
  unfold Job.GetQueueByTopic
  rw [h]

theorem stamp_GenTask (id topic message : GoString) :
    (if (GenTask id topic message).Topic = [] then
        { GenTask id topic message with Topic := topic }
      else GenTask id topic message) = GenTask id topic message := by
  split <;> rfl

theorem encodeTasks_genTasks (JsonEncode : Task → GoString × Option Error)
    (ids : Nat → GoString) (topic : GoString) (messages : List GoString) :
    ∀ k : Nat,
      (encodeTasks JsonEncode topic (genTasks ids topic k messages)).length = messages.length ∧
      ∀ (i : Nat) (m : GoString), messages[i]? = some m →
        (encodeTasks JsonEncode topic (genTasks ids topic k messages))[i]? =
          some (JsonEncode (GenTask (ids (k + i)) topic m)).1 := by
  induction messages with
  | nil =>
    intro k
    exact ⟨rfl, fun i m h => by simp at h⟩
  | cons x rest ih =>
    intro k
    simp only [genTasks, encodeTasks, stamp_GenTask, List.length_cons]
    refine ⟨by rw [(ih (k + 1)).1], ?_⟩
    intro i m h
    cases i with
    | zero =>
      simp only [List.getElem?_cons_zero, Option.some.injEq] at h
      subst h
      simp
    | succ n =>
      simp only [List.getElem?_cons_succ] at h
      simp only [List.getElem?_cons_succ]
      rw [(ih (k + 1)).2 n m h]
      have : k + 1 + n = k + (n + 1) := by omega
      rw [this]

/-- C17: for a topic that the registry maps to a worker, `BatchEnqueue` makes exactly one
call of the backend, `BatchEnqueue` of the queue of that worker with key `topic`, the
caller's arguments and a list as long as `messages` whose element at index i is the
encoding of the task that `GenTask` makes of `messages[i]` (the generated id, topic `topic`,
message `messages[i]`), and it returns what that call returns; `Enqueue` makes exactly one
call, `Enqueue` of the backend with the encoding of such a task for its message; and
`EnqueueRaw` makes exactly one call, `Enqueue` of the backend with the message itself. -/
theorem BatchEnqueue_forwards (JsonEncode : Task → GoString × Option Error) (id : GoString)
    (ids : Nat → GoString) (j : Job) (topic : GoString) (w : WorkerWithFunc)
    (message : GoString) (messages : List GoString) (args : List Iface)
    (hreg : mapGet j.workers topic = some w) :
    (∃ arr : List GoString,
      j.BatchEnqueue JsonEncode ids topic messages args =
        { ret := w.q.BatchEnqueue topic arr args,
          trace := [Event.batchEnqueue topic arr args] } ∧
      arr.length = messages.length ∧
      ∀ (i : Nat) (m : GoString), messages[i]? = some m →
        arr[i]? = some (JsonEncode (GenTask (ids i) topic m)).1 ∧
        (GenTask (ids i) topic m).Topic = topic ∧ (GenTask (ids i) topic m).Message = m) ∧
    (j.Enqueue JsonEncode id topic message args =
        { ret := w.q.Enqueue topic (JsonEncode (GenTask id topic message)).1 args,
          trace := [Event.enqueue topic (JsonEncode (GenTask id topic message)).1 args] } ∧
      (GenTask id topic message).Topic = topic ∧ (GenTask id topic message).Message = message) ∧
    j.EnqueueRaw topic message args =
      { ret := w.q.Enqueue topic message args,
        trace := [Event.enqueue topic message args] } := by
  have hq := GetQueueByTopic_registered j topic w hreg
  refine ⟨⟨encodeTasks JsonEncode topic (genTasks ids topic 0 messages), ?_, ?_, ?_⟩,
    ⟨?_, rfl, rfl⟩, ?_⟩
  · unfold Job.BatchEnqueue Job.BatchEnqueueWithTask
    rw [hq]
  · exact (encodeTasks_genTasks JsonEncode ids topic messages 0).1
  · intro i m h
    have := (encodeTasks_genTasks JsonEncode ids topic messages 0).2 i m h
    rw [Nat.zero_add] at this
    exact ⟨this, rfl, rfl⟩
  · unfold Job.Enqueue Job.EnqueueWithTask
    rw [hq]
    simp only [stamp_GenTask]
  · unfold Job.EnqueueRaw
    rw [hq]

/-- Witness of C17: on an engine with topic "t1" registered, `EnqueueRaw` of "m" makes the
one call `Enqueue("t1", "m")` of the backend and returns its answer `(true, nil)`. -/
theorem BatchEnqueue_forwards_witness :
    mapGet registeredJob.workers (lit "t1") = some (sampleWorker (stateHandler 0)) ∧
    registeredJob.EnqueueRaw (lit "t1") (lit "m") [] =
      { ret := Call.ret (true, none), trace := [Event.enqueue (lit "t1") (lit "m") []] } :=
  ⟨rfl, (BatchEnqueue_forwards taskEncode (lit "id") (fun _ => lit "id") registeredJob (lit "t1")
    (sampleWorker (stateHandler 0)) (lit "m") [lit "a", lit "b"] [] rfl).2.2⟩

end NaviJob
